import Mathlib

set_option maxRecDepth 16000

/-!
Verification of the consistency & coordination engine of this repository.

The Python modules `rfc_db_v2.py`, `rfc_assignment_mutex.py`,
`notion_reliability.py` and `chain_consistency_manager.py` are shallowly
embedded below: pure functions become Lean functions over `String` /
`List Char` / `Int` / `Nat` / `ℚ`, in-place mutation becomes explicit state
passing, raised exceptions become explicit error outcomes, and the process
environment (network, clock, filesystem) is passed in as explicit data.
-/

/- ------------------------------------------------------------------
Section 1: character-level helpers shared by the embeddings.
`pyWs` is the whitespace set of Python's `str.strip()` / `str.isspace()`
(ASCII whitespace plus the Unicode whitespace code points).
------------------------------------------------------------------ -/

def pyWs (c : Char) : Bool :=
  c = ' ' || c = '\t' || c = '\n' || c = '\x0b' || c = '\x0c' || c = '\r' ||
  (0x1c ≤ c.toNat && c.toNat ≤ 0x1f) || c.toNat = 0x85 || c.toNat = 0xa0 ||
  c.toNat = 0x1680 || (0x2000 ≤ c.toNat && c.toNat ≤ 0x200a) ||
  c.toNat = 0x2028 || c.toNat = 0x2029 || c.toNat = 0x202f ||
  c.toNat = 0x205f || c.toNat = 0x3000

/-- Python `line.lstrip()` on a list of characters. -/
def lstripL (l : List Char) : List Char := l.dropWhile pyWs

/-- Python `line.rstrip()` on a list of characters. -/
def rstripL (l : List Char) : List Char := (l.reverse.dropWhile pyWs).reverse

/-- Python `line.strip()` on a list of characters (both ends). -/
def stripL (l : List Char) : List Char := rstripL (lstripL l)

/-- Test `line.strip() == ""`: the line consists of whitespace only. -/
def isBlankL (l : List Char) : Bool := l.all pyWs

/- ------------------------------------------------------------------
Section 2: `rfc_db_v2.normalize_content`.

The Python source:
```
text = raw.replace("\r\n", "\n").replace("\r", "\n")
lines = []; blank = 0
for line in text.split("\n"):
    if line.strip() == "":
        blank += 1
        if blank > 1: continue
    else:
        blank = 0
    lines.append(line.rstrip())
while lines and lines[-1].strip() == "":
    lines.pop()
return "\n".join(lines).strip()
```
------------------------------------------------------------------ -/

/-- The two sequential replaces `replace("\r\n", "\n").replace("\r", "\n")`:
a CR that immediately precedes an LF is dropped (the LF stays), and every
remaining CR becomes an LF. -/
def normEol : List Char → List Char
  | [] => []
  | c :: cs =>
    if c = '\r' then
      match cs with
      | [] => ['\n']
      | c2 :: cs2 =>
        if c2 = '\n' then '\n' :: normEol cs2 else '\n' :: normEol (c2 :: cs2)
    else c :: normEol cs

/-- Python `text.split("\n")` (always returns at least one piece). -/
def splitNl : List Char → List (List Char)
  | [] => [[]]
  | c :: cs =>
    if c = '\n' then [] :: splitNl cs
    else
      match splitNl cs with
      | [] => [[c]]
      | l :: ls => (c :: l) :: ls

/-- Python `"\n".join(lines)`. -/
def joinNl : List (List Char) → List Char
  | [] => []
  | [l] => l
  | l :: l' :: ls => l ++ '\n' :: joinNl (l' :: ls)

/-- The blank-collapsing loop: `blank` counts the current run of blank lines;
a blank line is kept only when it is the first of its run, and every kept
line is appended right-stripped. -/
def collapseBlanks : Nat → List (List Char) → List (List Char)
  | _, [] => []
  | blank, l :: ls =>
    if isBlankL l then
      if blank + 1 > 1 then collapseBlanks (blank + 1) ls
      else rstripL l :: collapseBlanks (blank + 1) ls
    else rstripL l :: collapseBlanks 0 ls

/-- The trailing `while lines and lines[-1].strip() == "": lines.pop()`. -/
def dropTrailingBlanks (ls : List (List Char)) : List (List Char) :=
  (ls.reverse.dropWhile isBlankL).reverse

/-- Function `rfc_db_v2.normalize_content` on a list of characters. -/
def normalizeL (raw : List Char) : List Char :=
  stripL (joinNl (dropTrailingBlanks (collapseBlanks 0 (splitNl (normEol raw)))))

/-- Effect of the trailing `.strip()` on the joined lines, pushed to the
line level (used only in the proofs below): leading blank lines are
dropped and the first remaining line is left-stripped. -/
def fixLead : List (List Char) → List (List Char)
  | [] => []
  | l :: ls => if isBlankL l then fixLead ls else lstripL l :: ls

/-- Adjacent-lines relation used in the proofs below: not both lines of a
neighbouring pair are blank. -/
def nbPair (a b : List Char) : Prop :=
  ¬(isBlankL a = true ∧ isBlankL b = true)

/-- Function `rfc_db_v2.normalize_content`. -/
def normalize_content (raw : String) : String :=
  ⟨normalizeL raw.data⟩

/- ------------------------------------------------------------------
Section 3: `rfc_assignment_mutex.SeriesState` and its single transition
`apply_candidate`.  Issue numbers are Python ints, so `Int`; the in-place
mutation of the dataclass becomes state passing; `raise MutexError`
becomes the `mutexError` outcome (returned together with the state that
the object holds at raise time); `now_iso()` is passed in as `now`.
------------------------------------------------------------------ -/

structure SeriesState where
  series : String
  active_issue : Option Int
  queue : List Int
  updated_at : String
  version : Int := 1
deriving DecidableEq, Repr

/-- Python truthiness of an `Optional[int]`: `None` and `0` are falsy. -/
def pyTruthy : Option Int → Bool
  | none => false
  | some n => n != 0

inductive ApplyOutcome where
  | ok (status : String)
  | mutexError (msg : String)
deriving DecidableEq, Repr

/-- Returns `true` exactly on the `mutexError` outcome. -/
def ApplyOutcome.isError : ApplyOutcome → Bool
  | .ok _ => false
  | .mutexError _ => true

/-- Method `SeriesState.apply_candidate(candidate_issue, candidate_open,
active_issue_open)`.  Returns the outcome (status string, or the raised
`MutexError`) together with the state after the call. -/
def SeriesState.apply_candidate (s : SeriesState) (candidate_issue : Int)
    (candidate_open : Bool) (active_issue_open : Option Bool) (now : String) :
    ApplyOutcome × SeriesState :=
  if candidate_open = false then
    (.mutexError ("Issue #" ++ toString candidate_issue ++
      " is not open; cannot acquire lock"), s)
  else if s.active_issue = some candidate_issue then
    let q :=
      if candidate_issue ∈ s.queue then s.queue.erase candidate_issue else s.queue
    (.ok "already-active", { s with queue := q, updated_at := now })
  else if s.active_issue = none ∨ active_issue_open = some false then
    -- `if self.active_issue and active_issue_open is False and
    --     self.active_issue in self.queue:` (int truthiness: 0 is falsy)
    let q1 :=
      if pyTruthy s.active_issue ∧ active_issue_open = some false ∧
          s.active_issue.getD 0 ∈ s.queue then
        s.queue.filter (fun q => some q != s.active_issue)
      else s.queue
    let q2 := if candidate_issue ∈ q1 then q1.erase candidate_issue else q1
    (.ok "acquired",
      { s with active_issue := some candidate_issue, queue := q2, updated_at := now })
  else
    let q :=
      if candidate_issue ∉ s.queue then s.queue ++ [candidate_issue] else s.queue
    (.ok "queued", { s with queue := q, updated_at := now })

/- ------------------------------------------------------------------
Section 4: the chain-identifier pattern.

`CHAIN_PATTERN` / `SERIES_PATTERN` are the same regular expression
`(?:Game-)?RFC-(\d{1,4})-(\d{1,3})` with `re.IGNORECASE`; `search` finds
the leftmost match.  The matcher below is specialised to this pattern:
at a given start, the optional `Game-` prefix is tried first; `\d{1,4}`
can only succeed by taking the whole digit run (taking fewer leaves a
digit where `-` is required), and the final `\d{1,3}` greedily takes up
to three digits with nothing required after them.  Digits are the ASCII
digits.
------------------------------------------------------------------ -/

def isDig (c : Char) : Bool := '0' ≤ c && c ≤ '9'

/-- Numeric value of a run of ASCII digits (what Python `int()` returns on
the matched group). -/
def natOfDigits (ds : List Char) : Nat :=
  ds.foldl (fun a c => 10 * a + (c.toNat - '0'.toNat)) 0

/-- Case-insensitive literal-prefix match: returns the rest of the text
after the pattern, or `none`. -/
def stripCI : List Char → List Char → Option (List Char)
  | [], cs => some cs
  | _ :: _, [] => none
  | p :: ps, c :: cs => if c.toLower = p.toLower then stripCI ps cs else none

/-- Match `RFC-(\d{1,4})-(\d{1,3})` (case-insensitive) at the start of the
text, returning the two numeric groups. -/
def matchRfcAt (cs : List Char) : Option (Nat × Nat) :=
  match stripCI ("RFC-".data) cs with
  | none => none
  | some rest =>
    let ds := rest.takeWhile isDig
    let rest2 := rest.dropWhile isDig
    if ds.length = 0 ∨ 4 < ds.length then none
    else
      match rest2 with
      | [] => none
      | c2 :: rest3 =>
        if c2 = '-' then
          let ms := rest3.takeWhile isDig
          if ms.length = 0 then none
          else some (natOfDigits ds, natOfDigits (ms.take 3))
        else none

/-- Match the full pattern, optional `Game-` prefix included, at the start
of the text. -/
def matchChainAt (cs : List Char) : Option (Nat × Nat) :=
  match stripCI ("Game-".data) cs with
  | some rest => (matchRfcAt rest).orElse (fun _ => matchRfcAt cs)
  | none => matchRfcAt cs

/-- Python `CHAIN_PATTERN.search`: the match at the leftmost start
position where the pattern matches. -/
def searchChain : List Char → Option (Nat × Nat)
  | [] => none
  | c :: cs => (matchChainAt (c :: cs)).orElse (fun _ => searchChain cs)

/-- Decimal digit character for `n % 10`. -/
def digitChar (n : Nat) : Char := Char.ofNat ('0'.toNat + n % 10)

/-- Decimal digits, most significant first, with explicit fuel (the fuel
only needs to cover the digit count, so `n + 1` always suffices; a fueled
definition keeps the function reducible by the kernel). -/
def natDigitsAux : Nat → Nat → List Char
  | 0, _ => []
  | fuel + 1, n =>
    if n < 10 then [digitChar n] else natDigitsAux fuel (n / 10) ++ [digitChar n]

/-- Decimal digits of a natural number, most significant first. -/
def natDigits (n : Nat) : List Char := natDigitsAux (n + 1) n

/-- Python `f"{n:0wd}"` for a nonnegative integer: decimal digits,
zero-padded on the left to a minimum width of `w`. -/
def padMin (w : Nat) (n : Nat) : String :=
  ⟨List.replicate (w - (natDigits n).length) '0' ++ natDigits n⟩

/-- Shape `RFC-` + exactly three digits + `-` + exactly two digits: the
spec's fixed-width rendering `"RFC-###-##"`. -/
def isCanonicalChainId (s : String) : Bool :=
  match s.data with
  | ['R', 'F', 'C', '-', a, b, c, '-', d, e] =>
    isDig a && isDig b && isDig c && isDig d && isDig e
  | _ => false

/-- Function `chain_consistency_manager.normalize_chain_id` applied to the
numeric values of the two matched groups. -/
def normalize_chain_id (series micro : Nat) : String :=
  "RFC-" ++ padMin 3 series ++ "-" ++ padMin 2 micro

/-- Function `chain_consistency_manager.extract_chain_id`. -/
def extract_chain_id (text : String) : Option String :=
  (searchChain text.data).map (fun p => normalize_chain_id p.1 p.2)

/-- Function `rfc_assignment_mutex.extract_series`. -/
def extract_series (title : String) : Option String :=
  (searchChain title.data).map (fun p => "RFC-" ++ padMin 3 p.1)

/-- Function `rfc_assignment_mutex.extract_series_micro`. -/
def extract_series_micro (title : String) : Option String :=
  (searchChain title.data).map
    (fun p => "RFC-" ++ padMin 3 p.1 ++ "-" ++ padMin 2 p.2)

/- ------------------------------------------------------------------
Section 5: JSON text production, as `json.dumps` emits it with
`ensure_ascii=True` (the default): `"`, `\` and the common control characters
get two-character escapes, other control and all non-ASCII characters become
`\uXXXX` (a surrogate pair beyond the BMP), everything else is literal.
------------------------------------------------------------------ -/

def hexDig (n : Nat) : Char :=
  if n < 10 then Char.ofNat ('0'.toNat + n) else Char.ofNat ('a'.toNat + (n - 10))

def hex4 (n : Nat) : List Char :=
  [hexDig (n / 4096 % 16), hexDig (n / 256 % 16), hexDig (n / 16 % 16), hexDig (n % 16)]

def jsonEscapeChar (c : Char) : List Char :=
  if c = '"' then ['\\', '"']
  else if c = '\\' then ['\\', '\\']
  else if c = '\n' then ['\\', 'n']
  else if c = '\r' then ['\\', 'r']
  else if c = '\t' then ['\\', 't']
  else if c.toNat = 8 then ['\\', 'b']
  else if c.toNat = 12 then ['\\', 'f']
  else if c.toNat < 0x20 ∨ 0x7e < c.toNat then
    if c.toNat ≤ 0xffff then '\\' :: 'u' :: hex4 c.toNat
    else
      let m := c.toNat - 0x10000
      ('\\' :: 'u' :: hex4 (0xd800 + m / 0x400)) ++
        ('\\' :: 'u' :: hex4 (0xdc00 + m % 0x400))
  else [c]

def jsonEscape (s : String) : String := ⟨(s.data.map jsonEscapeChar).flatten⟩

/-- JSON rendering of a string value, quotes included. -/
def jsonStr (s : String) : String := "\"" ++ jsonEscape s ++ "\""

/-- JSON rendering of an `Optional[int]` (Python `None` prints `null`). -/
def jsonOptInt : Option Int → String
  | none => "null"
  | some n => toString n

/-- What `json.dumps(..., indent=2)` makes of an int list sitting at depth
one: `[]` when empty, otherwise one element per line at four spaces. -/
def queueJsonIndent (q : List Int) : String :=
  match q with
  | [] => "[]"
  | _ => "[\n    " ++ String.intercalate ",\n    " (q.map toString) ++ "\n  ]"

/-- Output of `json.dumps(state, indent=2)` for the five-field state dict
built by `SeriesState.to_body` (insertion order preserved). -/
def SeriesState.stateJson (s : SeriesState) : String :=
  "\x7b\n  \"series\": " ++ jsonStr s.series ++
  ",\n  \"active_issue\": " ++ jsonOptInt s.active_issue ++
  ",\n  \"queue\": " ++ queueJsonIndent s.queue ++
  ",\n  \"updated_at\": " ++ jsonStr s.updated_at ++
  ",\n  \"version\": " ++ toString s.version ++ "\n\x7d"

/-- Method `SeriesState.to_body`. -/
def SeriesState.to_body (s : SeriesState) : String :=
  "Tracking state for " ++ s.series ++ " automation.\n\n```json\n" ++
  s.stateJson ++ "\n```\n"

/- ------------------------------------------------------------------
Section 6: `rfc_assignment_mutex.ensure_series_state`.

The GraphQL calls and the clock are passed in as a `MutexEnv`: what
`load_issue` finds for the candidate and for the recorded active issue,
the tracking-issue search/create outcomes, the result of
`dependencies_blocked` (network and a config file), whether
`update_tracking_issue` succeeds, and `now_iso()`.  The JSON-block parse
`SeriesState.from_body` is likewise environment-supplied (`fromBody`):
no claim verified here constrains its internals.  `raise MutexError`
becomes `Except.error` (the CLI `main` prints status `"error"` for it).
------------------------------------------------------------------ -/

/-- Python `s.startswith(pre)` (by characters, kernel-reducible). -/
def pyStartsWith (s pre : String) : Bool :=
  s.data.take pre.data.length == pre.data

structure IssueData where
  title : String
  state : String
deriving DecidableEq, Repr

structure TrackingIssue where
  number : Int
  body : String
deriving DecidableEq, Repr

structure MutexEnv where
  issue : Option IssueData
  tracking : Option TrackingIssue
  createdTracking : Option TrackingIssue
  fromBody : String → String → SeriesState
  blockedDeps : String → List String
  activeIssue : Option IssueData
  updateOk : Bool
  updatedNumber : Int
  now : String

structure MutexResult where
  status : String
  issue_number : Option Int := none
  series : Option String := none
  chain : Option String := none
  active_issue : Option Int := none
  queue : List Int := []
  blocked_dependencies : List String := []
  tracking_issue_number : Option Int := none
deriving DecidableEq, Repr

/-- Tail of `ensure_series_state` past the dependency check: the
`apply_candidate` call and the conditional write-back of the tracking
body. -/
def ensureFinish (env : MutexEnv) (issue : IssueData) (issue_number : Int)
    (series series_full : String) (tracking : TrackingIssue)
    (state : SeriesState) (active_issue_open : Option Bool) :
    Except String MutexResult :=
  match state.apply_candidate issue_number (issue.state == "OPEN")
      active_issue_open env.now with
  | (.mutexError m, _) => .error m
  | (.ok status, st) =>
    if st.to_body ≠ tracking.body then
      if env.updateOk then
        .ok { status := status, series := some series, chain := some series_full,
              active_issue := st.active_issue, queue := st.queue,
              blocked_dependencies := [],
              tracking_issue_number := some env.updatedNumber }
      else .error "failed to update tracking issue"
    else
      .ok { status := status, series := some series, chain := some series_full,
            active_issue := st.active_issue, queue := st.queue,
            blocked_dependencies := [],
            tracking_issue_number := some tracking.number }

/-- Function `ensure_series_state(owner, name, issue_number)`. -/
def ensureSeriesState (env : MutexEnv) (issue_number : Int) :
    Except String MutexResult :=
  match env.issue with
  | none => .error ("Issue #" ++ toString issue_number ++ " not found")
  | some issue =>
    match extract_series_micro issue.title with
    | none => .ok { status := "no-series", issue_number := some issue_number }
    | some series_full =>
      let series := (extract_series issue.title).getD ""
      match (match env.tracking with
             | some t => some t
             | none => env.createdTracking) with
      | none => .error "failed to create tracking issue"
      | some tracking =>
        let state := env.fromBody series tracking.body
        let identifier :=
          if pyStartsWith series_full "GAME-" then series_full
          else "GAME-" ++ series_full
        let blocked := env.blockedDeps identifier
        if blocked ≠ [] then
          let st1 := if state.active_issue = some issue_number then
              { state with active_issue := none } else state
          let st2 := if issue_number ∈ st1.queue then st1
            else { st1 with queue := st1.queue ++ [issue_number] }
          let st3 := { st2 with updated_at := env.now }
          if st3.to_body ≠ tracking.body then
            if env.updateOk then
              .ok { status := "queued-dependency", series := some series,
                    chain := some series_full, active_issue := st3.active_issue,
                    queue := st3.queue, blocked_dependencies := blocked,
                    tracking_issue_number := some env.updatedNumber }
            else .error "failed to update tracking issue"
          else
            .ok { status := "queued-dependency", series := some series,
                  chain := some series_full, active_issue := st3.active_issue,
                  queue := st3.queue, blocked_dependencies := blocked,
                  tracking_issue_number := some tracking.number }
        else
          if pyTruthy state.active_issue ∧ state.active_issue ≠ some issue_number then
            match env.activeIssue with
            | none => .error "active issue not found"
            | some act =>
              ensureFinish env issue issue_number series series_full tracking
                state (some (act.state == "OPEN"))
          else
            ensureFinish env issue issue_number series series_full tracking
              state none

/- ------------------------------------------------------------------
Section 7: `chain_consistency_manager.ChainRecord.detect_states`.

Entity records mirror the Python dataclasses.  `parse_github_timestamp`
is out of scope (I/O-adjacent string parsing); run creation times and the
classification reference time are modelled directly as rational seconds,
and `age_minutes` is their difference over sixty, as in `RunInfo`.
------------------------------------------------------------------ -/

def STATE_BRANCH_ONLY : String := "BRANCH_ONLY"

def STATE_ISSUE_ONLY_ASSIGNED : String := "ISSUE_ONLY_ASSIGNED"

def STATE_PR_CLOSED_CONFLICT : String := "PR_CLOSED_CONFLICT"

def STATE_CI_STUCK : String := "CI_STUCK"

def STATE_DUPLICATE_PRS : String := "DUPLICATE_PRS"

def CI_STUCK_THRESHOLD_MINUTES : ℚ := 30

structure IssueInfo where
  number : Int
  title : String
  state : String
  assignees : List String
  url : String
  updated_at : Option String := none
deriving DecidableEq, Repr

structure PullInfo where
  number : Int
  title : String
  state : String
  merged : Bool
  draft : Bool
  head_ref : String
  source_branch : String
  url : String
  updated_at : Option String := none
  closed_at : Option String := none
deriving DecidableEq, Repr

structure BranchInfo where
  name : String
  branch_protected : Bool
  url : String
deriving DecidableEq, Repr

structure RunInfo where
  run_id : Int
  workflow_name : String
  head_branch : String
  status : String
  conclusion : Option String
  created_at : ℚ
  url : String
deriving DecidableEq, Repr

/-- Method `RunInfo.age_minutes(reference)`. -/
def RunInfo.age_minutes (r : RunInfo) (reference : ℚ) : ℚ :=
  (reference - r.created_at) / 60

/-- Python `str.lower()` on the entity state strings. -/
def strLower (s : String) : String := ⟨s.data.map Char.toLower⟩

structure ChainRecord where
  chain_id : String
  issues : List IssueInfo := []
  pull_requests : List PullInfo := []
  branches : List BranchInfo := []
  runs : List RunInfo := []
deriving DecidableEq, Repr

/-- Method `ChainRecord.detect_states(now=now)`: the appended states in
source order. -/
def ChainRecord.detect_states (r : ChainRecord) (now : ℚ) : List String :=
  let open_prs := r.pull_requests.filter (fun pr => strLower pr.state == "open")
  let closed_prs :=
    r.pull_requests.filter (fun pr => strLower pr.state == "closed" && !pr.merged)
  let branches_present := decide (0 < r.branches.length)
  let open_issues := r.issues.filter (fun i => strLower i.state == "open")
  let open_issue_assigned := open_issues.any (fun i => !i.assignees.isEmpty)
  let closed_issues := r.issues.filter (fun i => strLower i.state == "closed")
  let stuck_runs := r.runs.filter (fun run =>
    (run.status == "in_progress" || run.status == "queued") &&
      decide (CI_STUCK_THRESHOLD_MINUTES < run.age_minutes now))
  (if branches_present && open_prs.isEmpty && open_issues.isEmpty &&
      !closed_issues.isEmpty then [STATE_BRANCH_ONLY] else []) ++
  (if open_issue_assigned && open_prs.isEmpty && !branches_present then
    [STATE_ISSUE_ONLY_ASSIGNED] else []) ++
  (if !closed_prs.isEmpty then [STATE_PR_CLOSED_CONFLICT] else []) ++
  (if !stuck_runs.isEmpty then [STATE_CI_STUCK] else []) ++
  (if 1 < open_prs.length then [STATE_DUPLICATE_PRS] else [])

/- ------------------------------------------------------------------
Section 8: `notion_reliability.NotionReliableClient._request`.

The response of each successive attempt is a function of the attempt
index; `random.uniform(0, 0.25)` is an explicit `jitter` function over
rationals; `time.sleep` amounts are collected in `backoffs`.  The `while
True` loop terminates because a retry requires `attempt < retries - 1`,
so a fuel of `retries` suffices (the fuel-0 fallbacks are unreachable
when the fuel is at least `retries - attempt`).
------------------------------------------------------------------ -/

def TRANSIENT_STATUS : List Nat := [429, 500, 502, 503, 504]

inductive AttemptResult where
  | ok (v : Nat)
  | httpError (status : Nat)
  | netError
deriving DecidableEq, Repr

inductive ReqOutcome where
  | success (v : Nat)
  | transientError
  | permanentError
deriving DecidableEq, Repr

structure ReqTrace where
  result : ReqOutcome
  retriesDone : Nat
  backoffs : List ℚ
deriving DecidableEq, Repr

/-- Body of the `while True` loop of `_request`, from a given attempt
index. -/
def requestAux (resp : Nat → AttemptResult) (jitter : Nat → ℚ)
    (retries : Nat) : Nat → Nat → ReqTrace
  | attempt, fuel =>
    match resp attempt with
    | .ok v => ⟨.success v, 0, []⟩
    | .httpError status =>
      if status ∈ TRANSIENT_STATUS ∧ attempt + 1 < retries then
        match fuel with
        | 0 => ⟨.transientError, 0, []⟩
        | fuel + 1 =>
          let b := 2 ^ (attempt + 1) + jitter (attempt + 1)
          let t := requestAux resp jitter retries (attempt + 1) fuel
          ⟨t.result, t.retriesDone + 1, b :: t.backoffs⟩
      else if status = 403 ∨ status = 404 then ⟨.permanentError, 0, []⟩
      else ⟨.transientError, 0, []⟩
    | .netError =>
      if attempt + 1 < retries then
        match fuel with
        | 0 => ⟨.transientError, 0, []⟩
        | fuel + 1 =>
          let b := 2 ^ (attempt + 1) + jitter (attempt + 1)
          let t := requestAux resp jitter retries (attempt + 1) fuel
          ⟨t.result, t.retriesDone + 1, b :: t.backoffs⟩
      else ⟨.transientError, 0, []⟩

/-- Method `NotionReliableClient._request`, starting at attempt 0 with
`self.retries = retries`. -/
def notionRequest (resp : Nat → AttemptResult) (jitter : Nat → ℚ)
    (retries : Nat) : ReqTrace :=
  requestAux resp jitter retries 0 retries

/- ------------------------------------------------------------------
Section 9: `rfc_db_v2.RfcDb` as a state machine over an explicit
filesystem.

The filesystem maps paths to database contents; sqlite internals are
modelled as the three tables the operations touch.  `__init__` copies
the original file (when present) to a fresh private temporary path and
migrates the copy; `upsert_page` / `record_issue` run a transaction
against the temporary copy only, and a failed transaction rolls back
(the copy is unchanged); `close()` promotes the temporary copy over the
original path and removes the temporary directory.  The advisory lock
taken inside `close()` serialises concurrent closers and does not touch
either file's content, so it is not represented here.
------------------------------------------------------------------ -/

structure PageRecord where
  page_id : String
  page_title : String
  last_edited_time : String
  content_hash : String
  rfc_identifier : String
  status : String := "active"
deriving DecidableEq, Repr

structure IssueRow where
  issue_number : Int
  issue_title : String
  issue_state : String
  notion_page_id : String
  content_hash : String
deriving DecidableEq, Repr

structure DbData where
  schema_versions : List Nat := []
  pages : List PageRecord := []
  issues : List IssueRow := []
deriving DecidableEq, Repr

def Fs : Type := String → Option DbData

def fsSet (fs : Fs) (p : String) (d : Option DbData) : Fs :=
  fun q => if q = p then d else fs q

/-- Method `RfcDb._migrate`: stamp schema version 2 when the recorded
maximum is absent or lower. -/
def migrate (d : DbData) : DbData :=
  if d.schema_versions.all (fun v => v < 2) then
    { d with schema_versions := d.schema_versions ++ [2] }
  else d

structure DbHandle where
  original_path : String
  tmp_path : String
deriving DecidableEq, Repr

/-- Method `RfcDb.__init__(path)`: copy the original (or start empty) at
the fresh temporary path and migrate the copy. -/
def rfcDbInit (fs : Fs) (path tmp_path : String) : Fs × DbHandle :=
  let base := (fs path).getD {}
  (fsSet fs tmp_path (some (migrate base)), ⟨path, tmp_path⟩)

/-- Upsert semantics of `INSERT ... ON CONFLICT(page_id) DO UPDATE`. -/
def upsertPages (pages : List PageRecord) (rec : PageRecord) : List PageRecord :=
  if pages.any (fun p => p.page_id == rec.page_id) then
    pages.map (fun p => if p.page_id == rec.page_id then rec else p)
  else pages ++ [rec]

/-- Method `RfcDb.upsert_page(rec)`: the transaction commits (`commitOk`)
or rolls back, in either case touching only the temporary copy. -/
def dbUpsertPage (fs : Fs) (h : DbHandle) (rec : PageRecord)
    (commitOk : Bool) : Fs :=
  match fs h.tmp_path with
  | none => fs
  | some d =>
    if commitOk then
      fsSet fs h.tmp_path (some { d with pages := upsertPages d.pages rec })
    else fs

/-- Replace semantics of `INSERT OR REPLACE INTO github_issues`. -/
def replaceIssueRow (issues : List IssueRow) (row : IssueRow) : List IssueRow :=
  if issues.any (fun i => i.issue_number == row.issue_number) then
    issues.map (fun i => if i.issue_number == row.issue_number then row else i)
  else issues ++ [row]

/-- Method `RfcDb.record_issue(...)` (state column fixed to `'open'`). -/
def dbRecordIssue (fs : Fs) (h : DbHandle) (issue_number : Int)
    (issue_title page_id content_hash : String) (commitOk : Bool) : Fs :=
  match fs h.tmp_path with
  | none => fs
  | some d =>
    if commitOk then
      fsSet fs h.tmp_path (some { d with issues := (replaceIssueRow d.issues
        ⟨issue_number, issue_title, "open", page_id, content_hash⟩) })
    else fs

/-- Method `RfcDb.close()`: promote the temporary copy over the original
path (`shutil.move`), then delete the temporary directory. -/
def dbClose (fs : Fs) (h : DbHandle) : Fs :=
  fsSet (fsSet fs h.original_path (fs h.tmp_path)) h.tmp_path none

inductive DbOp where
  | upsert (rec : PageRecord) (commitOk : Bool)
  | recordIssue (issue_number : Int)
      (issue_title page_id content_hash : String) (commitOk : Bool)
deriving DecidableEq, Repr

def applyDbOp (fs : Fs) (h : DbHandle) : DbOp → Fs
  | .upsert rec ok => dbUpsertPage fs h rec ok
  | .recordIssue n t p c ok => dbRecordIssue fs h n t p c ok

/-- Any interleaving of store mutations between `open` and `close`. -/
def runDbOps (h : DbHandle) : Fs → List DbOp → Fs
  | fs, [] => fs
  | fs, op :: ops => runDbOps h (applyDbOp fs h op) ops

/- ------------------------------------------------------------------
Section 10: `rfc_db_v2.stable_hash`.

`payload = {"content": normalize_content(content)}` updated with the
(string-keyed, string-valued) `extra` mapping when it is non-empty
(Python truthiness of the dict), serialised by `json.dumps(payload,
sort_keys=True, separators=(",", ":"))`, UTF-8 encoded and hashed with
SHA-256 (implemented below over `Nat` with explicit `% 2 ^ 32`).
------------------------------------------------------------------ -/

def dictSet (d : List (String × String)) (k v : String) :
    List (String × String) :=
  if d.any (fun p => p.1 = k) then
    d.map (fun p => if p.1 = k then (k, v) else p)
  else d ++ [(k, v)]

/-- Python `payload.update(extra)`. -/
def dictUpdate (d e : List (String × String)) : List (String × String) :=
  e.foldl (fun acc p => dictSet acc p.1 p.2) d

/-- Lookup of the first binding of key `k` (the mapping read-back used to
state which field two metadata mappings differ in). -/
def dictGet (k : String) : List (String × String) → Option String
  | [] => none
  | p :: rest => if p.1 = k then some p.2 else dictGet k rest

/-- The payload dict of `stable_hash` (`if extra:` is dict truthiness, so
an empty mapping is not applied — the result is the same either way). -/
def payloadOf (content : String) (extra : List (String × String)) :
    List (String × String) :=
  if extra.isEmpty then [("content", normalize_content content)]
  else dictUpdate [("content", normalize_content content)] extra

/-- Insertion step of a stable insertion sort on the key. -/
def insertByKey (p : String × String) : List (String × String) →
    List (String × String)
  | [] => [p]
  | q :: rest =>
    if p.1 ≤ q.1 then p :: q :: rest else q :: insertByKey p rest

/-- Sorting of `sort_keys=True` (string keys compared by code points). -/
def sortByKey (d : List (String × String)) : List (String × String) :=
  d.foldr insertByKey []

/-- Output of `json.dumps(d, sort_keys=True, separators=(",", ":"))` for a
string-to-string dict. -/
def jsonDumpsSorted (d : List (String × String)) : String :=
  "\x7b" ++ String.intercalate ","
    ((sortByKey d).map (fun p => jsonStr p.1 ++ ":" ++ jsonStr p.2)) ++ "\x7d"

/-- The exact text handed to `hashlib.sha256` by `stable_hash`. -/
def hashInput (content : String) (extra : List (String × String)) : String :=
  jsonDumpsSorted (payloadOf content extra)

/-- UTF-8 bytes of one code point. -/
def utf8Char (n : Nat) : List Nat :=
  if n < 0x80 then [n]
  else if n < 0x800 then [0xc0 + n / 64, 0x80 + n % 64]
  else if n < 0x10000 then
    [0xe0 + n / 4096, 0x80 + n / 64 % 64, 0x80 + n % 64]
  else
    [0xf0 + n / 0x40000, 0x80 + n / 4096 % 64, 0x80 + n / 64 % 64, 0x80 + n % 64]

def utf8Encode (s : String) : List Nat :=
  (s.data.map (fun c => utf8Char c.toNat)).flatten

def rotr (n x : Nat) : Nat :=
  (x / 2 ^ n + x % 2 ^ n * 2 ^ (32 - n)) % 2 ^ 32

def bsig0 (x : Nat) : Nat := rotr 2 x ^^^ rotr 13 x ^^^ rotr 22 x

def bsig1 (x : Nat) : Nat := rotr 6 x ^^^ rotr 11 x ^^^ rotr 25 x

def ssig0 (x : Nat) : Nat := rotr 7 x ^^^ rotr 18 x ^^^ x / 2 ^ 3

def ssig1 (x : Nat) : Nat := rotr 17 x ^^^ rotr 19 x ^^^ x / 2 ^ 10

def chF (x y z : Nat) : Nat := x &&& y ^^^ (x ^^^ 0xffffffff) &&& z

def majF (x y z : Nat) : Nat := x &&& y ^^^ x &&& z ^^^ y &&& z

def K256 : List Nat :=
  [1116352408, 1899447441, 3049323471, 3921009573, 961987163,
   1508970993, 2453635748, 2870763221, 3624381080, 310598401,
   607225278, 1426881987, 1925078388, 2162078206, 2614888103,
   3248222580, 3835390401, 4022224774, 264347078, 604807628,
   770255983, 1249150122, 1555081692, 1996064986, 2554220882,
   2821834349, 2952996808, 3210313671, 3336571891, 3584528711,
   113926993, 338241895, 666307205, 773529912, 1294757372,
   1396182291, 1695183700, 1986661051, 2177026350, 2456956037,
   2730485921, 2820302411, 3259730800, 3345764771, 3516065817,
   3600352804, 4094571909, 275423344, 430227734, 506948616,
   659060556, 883997877, 958139571, 1322822218, 1537002063,
   1747873779, 1955562222, 2024104815, 2227730452, 2361852424,
   2428436474, 2756734187, 3204031479, 3329325298]

def H256 : List Nat :=
  [1779033703, 3144134277, 1013904242, 2773480762,
   1359893119, 2600822924, 528734635, 1541459225]

/-- Big-endian byte rendering of `n` in `w` bytes. -/
def beBytes : Nat → Nat → List Nat
  | 0, _ => []
  | w + 1, n => beBytes w (n / 256) ++ [n % 256]

/-- SHA-256 padding: `0x80`, zeros to 56 mod 64, 8-byte bit length. -/
def shaPad (msg : List Nat) : List Nat :=
  msg ++ 0x80 :: List.replicate ((119 - msg.length % 64) % 64) 0 ++
    beBytes 8 (8 * msg.length)

/-- Big-endian 32-bit words from bytes. -/
def chunkWords : List Nat → List Nat
  | b0 :: b1 :: b2 :: b3 :: rest =>
    (b0 * 2 ^ 24 + b1 * 2 ^ 16 + b2 * 256 + b3) :: chunkWords rest
  | _ => []

def chunks64 : List Nat → List (List Nat)
  | [] => []
  | x :: xs => (x :: xs).take 64 :: chunks64 ((x :: xs).drop 64)
termination_by l => l.length
decreasing_by simp; omega

/-- Message-schedule extension of the sixteen block words to sixty-four. -/
def schedule (ws : List Nat) : List Nat :=
  (List.range 48).foldl (fun acc _ =>
    let n := acc.length
    acc ++ [(ssig1 (acc.getD (n - 2) 0) + acc.getD (n - 7) 0 +
      ssig0 (acc.getD (n - 15) 0) + acc.getD (n - 16) 0) % 2 ^ 32]) ws

def compressStep (ki wi : Nat) (st : List Nat) : List Nat :=
  match st with
  | [a, b, c, d, e, f, g, h] =>
    let t1 := (h + bsig1 e + chF e f g + ki + wi) % 2 ^ 32
    let t2 := (bsig0 a + majF a b c) % 2 ^ 32
    [(t1 + t2) % 2 ^ 32, a, b, c, (d + t1) % 2 ^ 32, e, f, g]
  | _ => st

def compressBlock (st block : List Nat) : List Nat :=
  let ws := schedule (chunkWords block)
  let st' := (K256.zip ws).foldl (fun s p => compressStep p.1 p.2 s) st
  (st.zip st').map (fun p => (p.1 + p.2) % 2 ^ 32)

def sha256Words (msg : List Nat) : List Nat :=
  (chunks64 (shaPad msg)).foldl compressBlock H256

def toHex8 (n : Nat) : List Char := hex4 (n / 65536) ++ hex4 (n % 65536)

/-- Hex digest of SHA-256 over a byte list. -/
def sha256Hex (msg : List Nat) : String :=
  ⟨((sha256Words msg).map toHex8).flatten⟩

/-- Function `rfc_db_v2.stable_hash(content, extra=extra)`. -/
def stable_hash (content : String) (extra : List (String × String)) : String :=
  sha256Hex (utf8Encode (hashInput content extra))

/- ------------------------------------------------------------------
Section 11: concrete data used by the theorems below.
------------------------------------------------------------------ -/

/-- Classification "transient" of one attempt's outcome: a network or
timeout error, or an HTTP status in `TRANSIENT_STATUS`. -/
def transientAttempt (a : AttemptResult) : Prop :=
  a = .netError ∨ ∃ st, a = .httpError st ∧ st ∈ TRANSIENT_STATUS

/-- Environment in which the candidate's chain has an open blocking
dependency: tracking issue #77 exists with a body the parse reads as an
empty state. -/
def envQueuedDep : MutexEnv where
  issue := some ⟨"Game-RFC-010-01: add feature", "OPEN"⟩
  tracking := some ⟨77, "old body"⟩
  createdTracking := none
  fromBody := fun series _ => ⟨series, none, [], "t0", 1⟩
  blockedDeps := fun _ => ["GAME-RFC-009-01"]
  activeIssue := none
  updateOk := true
  updatedNumber := 78
  now := "t1"

/-- Environment with no blocked dependency and no active owner: the
candidate acquires the series. -/
def envAcquire : MutexEnv where
  issue := some ⟨"Game-RFC-010-01: add feature", "OPEN"⟩
  tracking := some ⟨77, "old body"⟩
  createdTracking := none
  fromBody := fun series _ => ⟨series, none, [], "t0", 1⟩
  blockedDeps := fun _ => []
  activeIssue := none
  updateOk := true
  updatedNumber := 78
  now := "t1"

/- ==================================================================
Theorems.
================================================================== -/

/-- C1: the `SeriesState.apply_candidate` transition reproduces the
spec's fixture sequence: from the default (empty) state, candidate 10
(open, no recorded owner) is acquired with an empty queue; with open
active owner 11, candidate 12 is queued and the owner is unchanged; with
active owner 20 whose ticket is closed, candidate 30 is acquired; when 5
is already the active owner, candidate 5 reports already-active and 5 is
removed from the queue; and a closed candidate 99 raises `MutexError`
(modelled as the `mutexError` outcome). -/
theorem C1_series_state_fixture_transitions :
    (SeriesState.apply_candidate ⟨"RFC-093", none, [], "t0", 1⟩ 10 true none "t1"
      = (.ok "acquired", ⟨"RFC-093", some 10, [], "t1", 1⟩)) ∧
    (SeriesState.apply_candidate ⟨"RFC-093", some 11, [], "t0", 1⟩ 12 true
        (some true) "t1"
      = (.ok "queued", ⟨"RFC-093", some 11, [12], "t1", 1⟩)) ∧
    (SeriesState.apply_candidate ⟨"RFC-093", some 20, [], "t0", 1⟩ 30 true
        (some false) "t1"
      = (.ok "acquired", ⟨"RFC-093", some 30, [], "t1", 1⟩)) ∧
    (SeriesState.apply_candidate ⟨"RFC-093", some 5, [5, 7], "t0", 1⟩ 5 true
        (some true) "t1"
      = (.ok "already-active", ⟨"RFC-093", some 5, [7], "t1", 1⟩)) ∧
    (SeriesState.apply_candidate ⟨"RFC-093", some 5, [], "t0", 1⟩ 99 false
        (some true) "t1"
      = (.mutexError "Issue #99 is not open; cannot acquire lock",
         ⟨"RFC-093", some 5, [], "t0", 1⟩)) := by
  refine ⟨?_, ?_, ?_, ?_, ?_⟩ <;> decide

/-- C7: the chain classification fixtures.  A chain with one closed
ticket, an automation branch and no open PR is classified `BRANCH_ONLY`;
one open assigned ticket and nothing else gives exactly
`ISSUE_ONLY_ASSIGNED`; two open PRs give `DUPLICATE_PRS`; a single
`in_progress` run created sixty minutes before the reference time gives
`CI_STUCK` (the threshold being thirty minutes). -/
theorem C7_chain_classification_fixtures :
    (STATE_BRANCH_ONLY ∈ ChainRecord.detect_states
      ⟨"RFC-001-01",
       [⟨1, "Game-RFC-001-01: done", "closed", [], "", none⟩], [],
       [⟨"copilot/rfc-001-01", false, ""⟩], []⟩ 3600) ∧
    (ChainRecord.detect_states
      ⟨"RFC-001-02",
       [⟨2, "Game-RFC-001-02: open task", "open", ["copilot"], "", none⟩],
       [], [], []⟩ 3600 = [STATE_ISSUE_ONLY_ASSIGNED]) ∧
    (STATE_DUPLICATE_PRS ∈ ChainRecord.detect_states
      ⟨"RFC-001-03", [],
       [⟨10, "Game-RFC-001-03", "open", false, false, "b1", "b1", "", none, none⟩,
        ⟨11, "Game-RFC-001-03", "open", false, false, "b2", "b2", "", none, none⟩],
       [], []⟩ 3600) ∧
    (ChainRecord.detect_states
      ⟨"RFC-001-04", [], [], [],
       [⟨5, "ci", "copilot/rfc-001-04", "in_progress", none, 0, ""⟩]⟩ 3600
      = [STATE_CI_STUCK]) := by
  refine ⟨by decide, by decide, by decide, ?_⟩
  have hq : decide (CI_STUCK_THRESHOLD_MINUTES <
      RunInfo.age_minutes ⟨5, "ci", "copilot/rfc-001-04", "in_progress", none, 0, ""⟩
        3600) = true := by
    simp only [RunInfo.age_minutes, CI_STUCK_THRESHOLD_MINUTES]
    norm_num
  simp only [ChainRecord.detect_states, List.filter, hq]
  decide

/-- C2 (counterexample): with a duplicate entry in the queue the claimed
invariant fails even though it held before the call: from state
active=3, queue=[7,7] (3 is not in the queue), candidate 7 acquires the
series -- `queue.remove` drops only the first 7 -- and the new active
issue 7 is still an element of the new queue [7]. -/
theorem C2_counterexample_duplicate_queue :
    (SeriesState.apply_candidate ⟨"RFC-001", some 3, [7, 7], "t0", 1⟩ 7 true
        (some false) "t1"
      = (.ok "acquired", ⟨"RFC-001", some 7, [7], "t1", 1⟩)) ∧
    (3 : Int) ∉ [(7 : Int), 7] ∧ (7 : Int) ∈ [(7 : Int)] := by
  refine ⟨?_, ?_, ?_⟩ <;> decide

/-- C2 (amended): for every `SeriesState` whose queue holds no duplicate
entries and whose active issue is not in the queue, any normally
returning `apply_candidate` call preserves both properties: the new
active issue is not in the new queue, and the new queue is an ordered
sublist of the old queue with the candidate possibly appended at the end
(FIFO order preserved, new entries only at the back). -/
theorem C2_queue_invariant_preserved (s : SeriesState) (cand : Int)
    (copen : Bool) (aopen : Option Bool) (now : String) (st : String)
    (s' : SeriesState) (hnd : s.queue.Nodup)
    (hinv : ∀ a, s.active_issue = some a → a ∉ s.queue)
    (h : s.apply_candidate cand copen aopen now = (.ok st, s')) :
    (∀ a, s'.active_issue = some a → a ∉ s'.queue) ∧
      s'.queue.Sublist (s.queue ++ [cand]) := by
  by_cases h1 : copen = false
  · simp only [SeriesState.apply_candidate, if_pos h1, Prod.mk.injEq] at h
    exact absurd h.1 (by simp)
  by_cases h2 : s.active_issue = some cand
  · have hc : cand ∉ s.queue := hinv cand h2
    simp only [SeriesState.apply_candidate, if_neg h1, if_pos h2, if_neg hc,
      Prod.mk.injEq, ApplyOutcome.ok.injEq] at h
    obtain ⟨-, h⟩ := h
    subst h
    exact ⟨fun a ha => hinv a ha, List.sublist_append_left _ _⟩
  by_cases h3 : s.active_issue = none ∨ aopen = some false
  · have hq1 : ¬(pyTruthy s.active_issue = true ∧ aopen = some false ∧
        s.active_issue.getD 0 ∈ s.queue) := by
      rintro ⟨ht, -, hmem⟩
      match hs : s.active_issue with
      | none => rw [hs] at ht; simp [pyTruthy] at ht
      | some a => rw [hs] at hmem; exact hinv a hs hmem
    simp only [SeriesState.apply_candidate, if_neg h1, if_neg h2, if_pos h3,
      if_neg hq1, Prod.mk.injEq, ApplyOutcome.ok.injEq] at h
    obtain ⟨-, h⟩ := h
    subst h
    by_cases hm : cand ∈ s.queue
    · rw [if_pos hm]
      refine ⟨?_, ((s.queue.erase_sublist cand).trans
        (List.sublist_append_left _ _))⟩
      intro a ha hmem
      obtain rfl : cand = a := by simpa using ha
      exact absurd ((hnd.mem_erase_iff).mp hmem).1 (by simp)
    · rw [if_neg hm]
      refine ⟨?_, List.sublist_append_left _ _⟩
      intro a ha hmem
      obtain rfl : cand = a := by simpa using ha
      exact hm hmem
  · obtain ⟨a, hs⟩ : ∃ a, s.active_issue = some a := by
      rcases hx : s.active_issue with - | a
      · exact absurd (Or.inl hx) h3
      · exact ⟨a, rfl⟩
    have ha : a ∉ s.queue := hinv a hs
    have hac : a ≠ cand := fun hh => h2 (hh ▸ hs)
    simp only [SeriesState.apply_candidate, if_neg h1, if_neg h2, if_neg h3,
      Prod.mk.injEq, ApplyOutcome.ok.injEq] at h
    obtain ⟨-, h⟩ := h
    subst h
    by_cases hm : cand ∉ s.queue
    · rw [if_pos hm]
      refine ⟨?_, List.Sublist.refl _⟩
      intro b hb hmem
      obtain rfl : a = b := by rw [hs] at hb; simpa using hb
      rcases List.mem_append.mp hmem with hl | hr
      · exact ha hl
      · exact hac (by simpa using hr)
    · rw [if_neg hm]
      refine ⟨?_, List.sublist_append_left _ _⟩
      intro b hb hmem
      obtain rfl : a = b := by rw [hs] at hb; simpa using hb
      exact ha hmem

/-- C2 (witness): the amended invariant applied to the concrete queued
fixture: active=11 (not in the empty queue), candidate 12 open while 11
is open; 12 is appended and 11 stays outside the queue. -/
theorem C2_queue_invariant_witness :
    (∀ a, (⟨"RFC-093", some 11, [12], "t1", 1⟩ : SeriesState).active_issue
        = some a → a ∉ (⟨"RFC-093", some 11, [12], "t1", 1⟩ : SeriesState).queue) ∧
      (⟨"RFC-093", some 11, [12], "t1", 1⟩ : SeriesState).queue.Sublist
        (([] : List Int) ++ [12]) :=
  C2_queue_invariant_preserved ⟨"RFC-093", some 11, [], "t0", 1⟩ 12 true
    (some true) "t1" "queued" ⟨"RFC-093", some 11, [12], "t1", 1⟩
    (by simp) (by simp) (by decide)

/-- C10: `apply_candidate` raises `MutexError` exactly when the candidate
is not open, and in that case the state is completely unchanged (it is
returned as it was: same series, active issue, queue, updated-at and
version). -/
theorem C10_apply_candidate_atomic_on_failure (s : SeriesState) (cand : Int)
    (copen : Bool) (aopen : Option Bool) (now : String) :
    ((s.apply_candidate cand copen aopen now).1.isError = true ↔ copen = false) ∧
      (copen = false → (s.apply_candidate cand copen aopen now).2 = s) := by
  cases copen
  · simp [SeriesState.apply_candidate, ApplyOutcome.isError]
  · constructor
    · simp only [SeriesState.apply_candidate]
      split_ifs <;> simp_all [ApplyOutcome.isError]
    · intro hh
      exact absurd hh (by simp)

/-- C10 (witness): the closed-candidate fixture: candidate 99 with
`candidate_open=False` raises and leaves the state untouched. -/
theorem C10_apply_candidate_atomic_witness :
    (((⟨"RFC-093", some 5, [], "t0", 1⟩ : SeriesState).apply_candidate 99 false
        (some true) "t1").1.isError = true ↔ false = false) ∧
      (false = false →
        ((⟨"RFC-093", some 5, [], "t0", 1⟩ : SeriesState).apply_candidate 99 false
          (some true) "t1").2 = ⟨"RFC-093", some 5, [], "t0", 1⟩) :=
  C10_apply_candidate_atomic_on_failure ⟨"RFC-093", some 5, [], "t0", 1⟩ 99 false
    (some true) "t1"

/-- Helper: store mutations touch only the temporary working copy, so
every other path keeps its content. -/
theorem runDbOps_preserves_other (h : DbHandle) (ops : List DbOp) :
    ∀ (fs : Fs) (q : String), q ≠ h.tmp_path → runDbOps h fs ops q = fs q := by
  induction ops with
  | nil => intro fs q _; rfl
  | cons op ops ih =>
    intro fs q hq
    have hop : applyDbOp fs h op q = fs q := by
      cases op with
      | upsert rec ok =>
        simp only [applyDbOp, dbUpsertPage]
        cases fs h.tmp_path with
        | none => rfl
        | some d =>
          by_cases hok : ok = true
          · simp only [hok, if_true, fsSet, if_neg hq]
          · simp only [Bool.not_eq_true] at hok
            simp only [hok, Bool.false_eq_true, if_false]
      | recordIssue n t p c ok =>
        simp only [applyDbOp, dbRecordIssue]
        cases fs h.tmp_path with
        | none => rfl
        | some d =>
          by_cases hok : ok = true
          · simp only [hok, if_true, fsSet, if_neg hq]
          · simp only [Bool.not_eq_true] at hok
            simp only [hok, Bool.false_eq_true, if_false]
    rw [runDbOps, ih (applyDbOp fs h op) q hq, hop]

/-- C8: the versioned store never writes the original path before
`close()`.  After `open` (the `RfcDb` constructor, copying to a fresh
temporary path) and any sequence of `upsert_page` / `record_issue`
transactions, committed or rolled back, the file at the original store
path holds exactly what it held before `open`; only `close()`'s promote
step replaces it. -/
theorem C8_store_untouched_before_close (fs : Fs) (path tmp_path : String)
    (ops : List DbOp) (hne : tmp_path ≠ path) :
    runDbOps (rfcDbInit fs path tmp_path).2 (rfcDbInit fs path tmp_path).1 ops
      path = fs path := by
  have hother := runDbOps_preserves_other (rfcDbInit fs path tmp_path).2 ops
    (rfcDbInit fs path tmp_path).1 path (fun hh => hne hh.symm)
  rw [hother]
  simp only [rfcDbInit, fsSet]
  rw [if_neg (fun hh => hne hh.symm)]

/-- C8 (witness): a fresh filesystem, one committed upsert; the original
path still holds nothing. -/
theorem C8_store_untouched_witness :
    runDbOps (rfcDbInit (fun _ => none) "rfc_tracking.db" "tmp/rfc.db").2
      (rfcDbInit (fun _ => none) "rfc_tracking.db" "tmp/rfc.db").1
      [DbOp.upsert ⟨"page-1", "Title", "2024-01-01", "hash", "RFC-001-01",
        "active"⟩ true]
      "rfc_tracking.db" = (fun _ => (none : Option DbData)) "rfc_tracking.db" :=
  C8_store_untouched_before_close (fun _ => none) "rfc_tracking.db" "tmp/rfc.db"
    [DbOp.upsert ⟨"page-1", "Title", "2024-01-01", "hash", "RFC-001-01",
      "active"⟩ true] (by decide)

/-- C5 (counterexample): an HTTP status outside the transient set and
outside 403/404 -- here 400 -- raises the transient-class error
immediately on the first attempt, with zero retries and no sleep, not
"after exhausting the N retry attempts" (retries is 5 here). -/
theorem C5_counterexample_unhandled_status_no_retry :
    notionRequest (fun _ => .httpError 400) (fun _ => 1 / 8) 5
      = ⟨.transientError, 0, []⟩ := by
  decide

/-- Helper: when every attempt fails transiently (network error or a
transient HTTP status), the loop performs exactly one backoff sleep of
`2 ^ a + jitter a` per retry attempt `a` and ends in a transient error
after `retries - 1` retries. -/
theorem requestAux_all_transient (resp : Nat → AttemptResult)
    (jitter : Nat → ℚ) (retries : Nat)
    (hall : ∀ i, transientAttempt (resp i)) :
    ∀ (fuel attempt : Nat), attempt < retries → retries - attempt ≤ fuel →
    requestAux resp jitter retries attempt fuel =
      ⟨.transientError, retries - 1 - attempt,
       (List.range (retries - 1 - attempt)).map
         (fun k => 2 ^ (attempt + k + 1) + jitter (attempt + k + 1))⟩ := by
  intro fuel
  induction fuel with
  | zero => intro attempt h1 h2; omega
  | succ fuel ih =>
    intro attempt h1 h2
    have hshift : ∀ (n : Nat),
        (List.range (n + 1)).map
          (fun k => (2 : ℚ) ^ (attempt + k + 1) + jitter (attempt + k + 1))
        = (2 ^ (attempt + 1) + jitter (attempt + 1)) ::
          (List.range n).map
            (fun k => 2 ^ (attempt + 1 + k + 1) + jitter (attempt + 1 + k + 1)) := by
      intro n
      rw [List.range_succ_eq_map, List.map_cons, List.map_map]
      have harg : ∀ k : Nat, attempt + Nat.succ k + 1 = attempt + 1 + k + 1 := by
        intro k; omega
      have hfun : ((fun k => (2 : ℚ) ^ (attempt + k + 1) + jitter (attempt + k + 1))
          ∘ Nat.succ)
          = (fun k => 2 ^ (attempt + 1 + k + 1) + jitter (attempt + 1 + k + 1)) := by
        funext k
        simp only [Function.comp_apply]
        rw [harg k]
      rw [hfun]
    rcases hall attempt with hnet | ⟨st, hst, hmem⟩
    · by_cases hlt : attempt + 1 < retries
      · have hn : retries - 1 - attempt = (retries - 1 - (attempt + 1)) + 1 := by
          omega
        simp only [requestAux, hnet, if_pos hlt, ih (attempt + 1) hlt (by omega)]
        rw [hn, hshift]
      · have hn : retries - 1 - attempt = 0 := by omega
        simp only [requestAux, hnet, if_neg hlt, hn, List.range_zero,
          List.map_nil]
    · have h34 : ¬(st = 403 ∨ st = 404) := by
        rintro (rfl | rfl) <;> simp [TRANSIENT_STATUS] at hmem
      by_cases hlt : attempt + 1 < retries
      · have hn : retries - 1 - attempt = (retries - 1 - (attempt + 1)) + 1 := by
          omega
        simp only [requestAux, hst, if_pos (And.intro hmem hlt),
          ih (attempt + 1) hlt (by omega)]
        rw [hn, hshift]
      · have hn : retries - 1 - attempt = 0 := by omega
        simp only [requestAux, hst,
          if_neg (fun hh : st ∈ TRANSIENT_STATUS ∧ attempt + 1 < retries =>
            hlt hh.2),
          if_neg h34, hn, List.range_zero, List.map_nil]

/-- C5 (amended): the request executor (1) retries transient failures --
HTTP 429/500/502/503/504 and network/timeout errors -- up to `retries`
attempts, sleeping `2 ^ a + jitter(a)` before the `a`-th retry, and then
raises the transient error; (2) with jitter drawn from `[0, 0.25]` every
backoff lies in `[2 ^ a, 2 ^ a + 0.25]`; (3) HTTP 403 and 404 raise the
permanent error immediately with no retry and no sleep; and (4) every
other HTTP status raises the transient-class error immediately on its
first occurrence, also with no retry and no sleep (not after exhausting
the retry budget). -/
theorem C5_retry_classification :
    (∀ (resp : Nat → AttemptResult) (jitter : Nat → ℚ) (retries : Nat),
      1 ≤ retries → (∀ i, transientAttempt (resp i)) →
      notionRequest resp jitter retries =
        ⟨.transientError, retries - 1,
         (List.range (retries - 1)).map (fun k => 2 ^ (k + 1) + jitter (k + 1))⟩) ∧
    (∀ (jitter : Nat → ℚ) (retries : Nat),
      (∀ i, 0 ≤ jitter i ∧ jitter i ≤ 1 / 4) →
      ∀ b ∈ (List.range (retries - 1)).map
          (fun k => (2 : ℚ) ^ (k + 1) + jitter (k + 1)),
        ∃ k, 2 ^ (k + 1) ≤ b ∧ b ≤ 2 ^ (k + 1) + 1 / 4) ∧
    (∀ (resp : Nat → AttemptResult) (jitter : Nat → ℚ) (retries : Nat)
      (status : Nat), resp 0 = .httpError status → status = 403 ∨ status = 404 →
      notionRequest resp jitter retries = ⟨.permanentError, 0, []⟩) ∧
    (∀ (resp : Nat → AttemptResult) (jitter : Nat → ℚ) (retries : Nat)
      (status : Nat), resp 0 = .httpError status → status ∉ TRANSIENT_STATUS →
      ¬(status = 403 ∨ status = 404) →
      notionRequest resp jitter retries = ⟨.transientError, 0, []⟩) := by
  refine ⟨?_, ?_, ?_, ?_⟩
  · intro resp jitter retries hr hall
    have h := requestAux_all_transient resp jitter retries hall retries 0
      (by omega) (by omega)
    rw [notionRequest, h]
    simp only [Nat.zero_add, Nat.sub_zero]
  · intro jitter retries hj b hb
    rcases List.mem_map.mp hb with ⟨k, -, rfl⟩
    refine ⟨k, ?_, ?_⟩
    · have := (hj (k + 1)).1; linarith
    · have := (hj (k + 1)).2; linarith
  · intro resp jitter retries status h0 h34
    have hnt : status ∉ TRANSIENT_STATUS := by
      rcases h34 with rfl | rfl <;> decide
    rw [notionRequest]
    cases retries with
    | zero =>
      simp only [requestAux, h0]
      rw [if_neg (fun hh : status ∈ TRANSIENT_STATUS ∧ 0 + 1 < 0 =>
        hnt hh.1), if_pos h34]
    | succ n =>
      simp only [requestAux, h0]
      rw [if_neg (fun hh : status ∈ TRANSIENT_STATUS ∧ 0 + 1 < n + 1 =>
        hnt hh.1), if_pos h34]
  · intro resp jitter retries status h0 hnt h34
    rw [notionRequest]
    cases retries with
    | zero =>
      simp only [requestAux, h0]
      rw [if_neg (fun hh : status ∈ TRANSIENT_STATUS ∧ 0 + 1 < 0 =>
        hnt hh.1), if_neg h34]
    | succ n =>
      simp only [requestAux, h0]
      rw [if_neg (fun hh : status ∈ TRANSIENT_STATUS ∧ 0 + 1 < n + 1 =>
        hnt hh.1), if_neg h34]

/-- C5 (witness): all-429 responses with retries=3 exhaust two retries
with the exact backoffs, and a 403 on the first attempt is permanent at
once. -/
theorem C5_retry_classification_witness :
    (notionRequest (fun _ => .httpError 429) (fun _ => 1 / 8) 3 =
      ⟨.transientError, 3 - 1,
       (List.range (3 - 1)).map
         (fun k => 2 ^ (k + 1) + (fun _ => (1 : ℚ) / 8) (k + 1))⟩) ∧
    (notionRequest (fun _ => .httpError 403) (fun _ => 1 / 8) 5 =
      ⟨.permanentError, 0, []⟩) :=
  ⟨C5_retry_classification.1 (fun _ => .httpError 429) (fun _ => 1 / 8) 3
      (by omega) (fun _ => Or.inr ⟨429, rfl, by decide⟩),
   C5_retry_classification.2.2.1 (fun _ => .httpError 403)
      (fun _ => 1 / 8) 5 403 rfl (Or.inl rfl)⟩

/-- Helper: a normal return of `apply_candidate` carries one of the three
transition statuses. -/
theorem applyCandidate_status (s : SeriesState) (c : Int) (co : Bool)
    (ao : Option Bool) (now st : String) (s' : SeriesState)
    (h : s.apply_candidate c co ao now = (.ok st, s')) :
    st = "already-active" ∨ st = "acquired" ∨ st = "queued" := by
  simp only [SeriesState.apply_candidate] at h
  split_ifs at h
  all_goals first
    | exact ApplyOutcome.noConfusion (congrArg Prod.fst h)
    | exact Or.inl (ApplyOutcome.ok.inj (congrArg Prod.fst h)).symm
    | exact Or.inr (Or.inl (ApplyOutcome.ok.inj (congrArg Prod.fst h)).symm)
    | exact Or.inr (Or.inr (ApplyOutcome.ok.inj (congrArg Prod.fst h)).symm)

/-- Helper: a normal return of the post-dependency tail of
`ensure_series_state` carries one of the three transition statuses. -/
theorem ensureFinish_status (env : MutexEnv) (issue : IssueData) (n : Int)
    (series series_full : String) (tracking : TrackingIssue)
    (state : SeriesState) (ao : Option Bool) (r : MutexResult)
    (h : ensureFinish env issue n series series_full tracking state ao = .ok r) :
    r.status = "already-active" ∨ r.status = "acquired" ∨ r.status = "queued" := by
  unfold ensureFinish at h
  split at h
  · exact Except.noConfusion h
  · next status st happ =>
    have hst := applyCandidate_status state n (issue.state == "OPEN") ao env.now
      status st happ
    split_ifs at h
    all_goals first
      | exact Except.noConfusion h
      | (obtain rfl := Except.ok.inj h; simpa using hst)

/-- C6 (counterexample): with an open blocking dependency,
`ensure_series_state` returns normally with status
`"queued-dependency"`, which is outside the claimed status set. -/
theorem C6_counterexample_queued_dependency :
    ensureSeriesState envQueuedDep 12 =
      .ok { status := "queued-dependency", issue_number := none,
            series := some "RFC-010", chain := some "RFC-010-01",
            active_issue := none, queue := [12],
            blocked_dependencies := ["GAME-RFC-009-01"],
            tracking_issue_number := some 78 } ∧
    "queued-dependency" ∉
      ["acquired", "queued", "already-active", "no-series"] := by
  exact ⟨by rfl, by decide⟩

/-- C6 (amended): every normal return of `ensure_series_state` carries
one of exactly five statuses: the four claimed ones -- `acquired`,
`queued`, `already-active`, `no-series` -- plus `queued-dependency`,
returned when the chain has an open blocking dependency (the error path,
reported as status `"error"` by `main`, covers failures to read or write
the hosting document and the closed-candidate `MutexError`). -/
theorem C6_status_set (env : MutexEnv) (n : Int) (r : MutexResult)
    (h : ensureSeriesState env n = .ok r) :
    r.status ∈ ["acquired", "queued", "already-active", "no-series",
      "queued-dependency"] := by
  simp only [ensureSeriesState] at h
  repeat any_goals split at h
  all_goals first
    | exact Except.noConfusion h
    | (obtain rfl := Except.ok.inj h; simp)
    | (rcases ensureFinish_status _ _ _ _ _ _ _ _ _ h with h1 | h1 | h1 <;>
        simp [h1])

/-- C6 (witness): the amended status set applied to the concrete
acquisition environment (no blocked dependency, no active owner):
`"acquired"` is in the five-status set. -/
theorem C6_status_set_witness :
    ("acquired" : String) ∈ ["acquired", "queued", "already-active",
      "no-series", "queued-dependency"] :=
  C6_status_set envAcquire 10
    { status := "acquired", issue_number := none, series := some "RFC-010",
      chain := some "RFC-010-01", active_issue := some 10, queue := [],
      blocked_dependencies := [], tracking_issue_number := some 78 }
    (by rfl)

/-- Helper: every character emitted by the digit printer is an ASCII
digit. -/
theorem isDig_digitChar (m : Nat) : isDig (digitChar m) = true := by
  have hm : m % 10 < 10 := Nat.mod_lt _ (by omega)
  have : ∀ k < 10, isDig (Char.ofNat (48 + k)) = true := by decide
  simpa [digitChar] using this (m % 10) hm

theorem natDigitsAux_all_dig :
    ∀ (fuel n : Nat), ∀ c ∈ natDigitsAux fuel n, isDig c = true := by
  intro fuel
  induction fuel with
  | zero => intro n c hc; simp [natDigitsAux] at hc
  | succ fuel ih =>
    intro n c hc
    by_cases hn : n < 10
    · simp only [natDigitsAux, if_pos hn, List.mem_singleton] at hc
      exact hc ▸ isDig_digitChar n
    · simp only [natDigitsAux, if_neg hn, List.mem_append,
        List.mem_singleton] at hc
      rcases hc with hc | hc
      · exact ih (n / 10) c hc
      · exact hc ▸ isDig_digitChar n

theorem natDigitsAux_len_le :
    ∀ (fuel k n : Nat), n < 10 ^ k → 0 < k →
      (natDigitsAux fuel n).length ≤ k := by
  intro fuel
  induction fuel with
  | zero => intro k n _ _; simp [natDigitsAux]
  | succ fuel ih =>
    intro k n hn hk
    by_cases h10 : n < 10
    · simp only [natDigitsAux, if_pos h10, List.length_singleton]
      omega
    · simp only [natDigitsAux, if_neg h10, List.length_append,
        List.length_singleton]
    -- n ≥ 10 and n < 10 ^ k forces k ≥ 2, and n / 10 < 10 ^ (k - 1)
      have hk2 : 2 ≤ k := by
        by_contra hlt
        interval_cases k <;> omega
      have hdiv : n / 10 < 10 ^ (k - 1) := by
        have h1 : n < 10 ^ (k - 1) * 10 := by
          have : 10 ^ (k - 1) * 10 = 10 ^ k := by
            rw [← pow_succ]
            congr 1
            omega
          omega
        exact Nat.div_lt_of_lt_mul (by omega)
      have := ih (k - 1) (n / 10) hdiv (by omega)
      omega

/-- Helper: the numeric value of a digit run is below `10 ^ length`. -/
theorem natOfDigits_lt (ds : List Char) (hds : ∀ c ∈ ds, isDig c = true) :
    natOfDigits ds < 10 ^ ds.length := by
  suffices h : ∀ (ds : List Char) (a : Nat), (∀ c ∈ ds, isDig c = true) →
      List.foldl (fun a c => 10 * a + (c.toNat - '0'.toNat)) a ds <
        (a + 1) * 10 ^ ds.length by
    simpa [natOfDigits] using h ds 0 hds
  intro ds
  induction ds with
  | nil => intro a _; simpa using Nat.lt_succ_self a
  | cons c cs ih =>
    intro a hc
    have hdig : c.toNat - '0'.toNat ≤ 9 := by
      have := hc c (by simp)
      simp only [isDig, Bool.and_eq_true, decide_eq_true_eq] at this
      have h1 : ('0' : Char).toNat = 48 := by decide
      have h2 : c.toNat ≤ '9'.toNat := this.2
      have h3 : ('9' : Char).toNat = 57 := by decide
      omega
    have := ih (10 * a + (c.toNat - '0'.toNat)) (fun d hd => hc d (by simp [hd]))
    calc List.foldl (fun a c => 10 * a + (c.toNat - '0'.toNat))
          (10 * a + (c.toNat - '0'.toNat)) cs
        < (10 * a + (c.toNat - '0'.toNat) + 1) * 10 ^ cs.length := this
      _ ≤ (a + 1) * 10 ^ (c :: cs).length := by
          simp only [List.length_cons, pow_succ]
          have : 10 * a + (c.toNat - '0'.toNat) + 1 ≤ (a + 1) * 10 := by omega
          calc (10 * a + (c.toNat - '0'.toNat) + 1) * 10 ^ cs.length
              ≤ (a + 1) * 10 * 10 ^ cs.length :=
                Nat.mul_le_mul_right _ this
            _ = (a + 1) * (10 ^ cs.length * 10) := by ring

/-- Helper: the numeric groups matched by the pattern are below `10^4`
and `10^3` (one to four series digits, at most three micro digits). -/
theorem matchRfcAt_bounds (cs : List Char) (s m : Nat)
    (h : matchRfcAt cs = some (s, m)) : s < 10000 ∧ m < 1000 := by
  unfold matchRfcAt at h
  rcases hstrip : stripCI ("RFC-".data) cs with - | rest <;> rw [hstrip] at h <;>
    dsimp only at h
  · exact Option.noConfusion h
  by_cases hlen : (rest.takeWhile isDig).length = 0 ∨
      4 < (rest.takeWhile isDig).length
  · rw [if_pos hlen] at h
    exact Option.noConfusion h
  rw [if_neg hlen] at h
  push_neg at hlen
  rcases hdrop : rest.dropWhile isDig with - | ⟨c2, rest3⟩ <;> rw [hdrop] at h <;>
    (try dsimp only at h)
  · exact Option.noConfusion h
  by_cases hc2 : c2 = '-'
  swap
  · rw [if_neg hc2] at h
    exact Option.noConfusion h
  rw [if_pos hc2] at h
  by_cases hm0 : (rest3.takeWhile isDig).length = 0
  · rw [if_pos hm0] at h
    exact Option.noConfusion h
  rw [if_neg hm0] at h
  obtain ⟨hs, hm⟩ := Prod.mk.injEq .. ▸ Option.some.inj h
  constructor
  · rw [← hs]
    have hd := natOfDigits_lt (rest.takeWhile isDig)
      (fun c hc => List.mem_takeWhile_imp hc)
    have hpow : 10 ^ (rest.takeWhile isDig).length ≤ 10 ^ 4 :=
      Nat.pow_le_pow_right (by omega) (by omega)
    omega
  · rw [← hm]
    have hd := natOfDigits_lt ((rest3.takeWhile isDig).take 3)
      (fun c hc => List.mem_takeWhile_imp (List.mem_of_mem_take hc))
    have hlt : ((rest3.takeWhile isDig).take 3).length ≤ 3 := by
      simp [List.length_take]
    have hpow : 10 ^ ((rest3.takeWhile isDig).take 3).length ≤ 10 ^ 3 :=
      Nat.pow_le_pow_right (by omega) hlt
    omega

theorem matchChainAt_bounds (cs : List Char) (s m : Nat)
    (h : matchChainAt cs = some (s, m)) : s < 10000 ∧ m < 1000 := by
  unfold matchChainAt at h
  rcases hstrip : stripCI ("Game-".data) cs with - | rest <;> rw [hstrip] at h <;>
    dsimp only at h
  · exact matchRfcAt_bounds cs s m h
  rcases hr : matchRfcAt rest with - | p <;> rw [hr] at h <;>
    simp only [Option.orElse] at h <;> (try dsimp only at h)
  · exact matchRfcAt_bounds cs s m h
  · exact matchRfcAt_bounds rest s m (h ▸ hr)

theorem searchChain_bounds (cs : List Char) (s m : Nat)
    (h : searchChain cs = some (s, m)) : s < 10000 ∧ m < 1000 := by
  induction cs with
  | nil => exact Option.noConfusion h
  | cons c cs ih =>
    unfold searchChain at h
    rcases hm : matchChainAt (c :: cs) with - | p <;> rw [hm] at h <;>
      simp only [Option.orElse] at h <;> (try dsimp only at h)
    · exact ih h
    · exact matchChainAt_bounds (c :: cs) s m (h ▸ hm)

/-- Helper: `padMin` pads with zeros on the left up to the width. -/
theorem padMin_data (w n : Nat) :
    (padMin w n).data =
      List.replicate (w - (natDigits n).length) '0' ++ natDigits n := rfl

theorem padMin_all_dig (w n : Nat) :
    ∀ c ∈ (padMin w n).data, isDig c = true := by
  intro c hc
  rw [padMin_data] at hc
  rcases List.mem_append.mp hc with hl | hr
  · obtain ⟨-, rfl⟩ := List.mem_replicate.mp hl
    decide
  · exact natDigitsAux_all_dig (n + 1) n c hr

theorem padMin_len_ge (w n : Nat) : w ≤ (padMin w n).data.length := by
  rw [padMin_data, List.length_append, List.length_replicate]
  omega

theorem padMin_len_exact (w n : Nat) (h : (natDigits n).length ≤ w) :
    (padMin w n).data.length = w := by
  rw [padMin_data, List.length_append, List.length_replicate]
  omega

/-- C9 (counterexample): the zero-padding is a minimum width, not a fixed
width.  The chain pattern admits a four-digit series and a three-digit
micro -- `%03d` / `%02d` do not truncate -- so `"RFC-1234-123"` extracts
to the identifier `"RFC-1234-123"`, which is not of the fixed-width shape
`"RFC-###-##"` (three series digits, two micro digits). -/
theorem C9_counterexample_wide_identifier :
    extract_chain_id "RFC-1234-123" = some "RFC-1234-123" ∧
    isCanonicalChainId "RFC-1234-123" = false := by
  exact ⟨by decide, by decide⟩

/-- C9 (amended): whenever the chain pattern matches, both
`extract_chain_id` and `extract_series_micro` render the identifier as
`RFC-` plus the series value zero-padded to a MINIMUM of three digits,
a dash, and the micro value zero-padded to a minimum of two digits; the
matched values are below 10000 and 1000, every padded character is a
digit, and the rendering has the exact fixed-width shape `"RFC-###-##"`
whenever the series is at most 999 and the micro at most 99. -/
theorem C9_extraction_zero_padded (text out : String)
    (h : extract_chain_id text = some out) :
    ∃ s m : Nat, searchChain text.data = some (s, m) ∧
      out = normalize_chain_id s m ∧
      extract_series_micro text = some out ∧
      s < 10000 ∧ m < 1000 ∧
      3 ≤ (padMin 3 s).data.length ∧ 2 ≤ (padMin 2 m).data.length ∧
      (∀ c ∈ (padMin 3 s).data, isDig c = true) ∧
      (∀ c ∈ (padMin 2 m).data, isDig c = true) ∧
      (s ≤ 999 → m ≤ 99 → isCanonicalChainId out = true) := by
  unfold extract_chain_id at h
  rcases hsm : searchChain text.data with - | ⟨s, m⟩ <;> rw [hsm] at h
  · exact Option.noConfusion h
  obtain rfl : normalize_chain_id s m = out := Option.some.inj h
  obtain ⟨hs, hm⟩ := searchChain_bounds text.data s m hsm
  refine ⟨s, m, rfl, rfl, ?_, hs, hm, padMin_len_ge 3 s, padMin_len_ge 2 m,
    padMin_all_dig 3 s, padMin_all_dig 2 m, ?_⟩
  · unfold extract_series_micro
    rw [hsm]
    rfl
  · intro hs999 hm99
    have hls : (natDigits s).length ≤ 3 :=
      natDigitsAux_len_le (s + 1) 3 s (by omega) (by omega)
    have hlm : (natDigits m).length ≤ 2 :=
      natDigitsAux_len_le (m + 1) 2 m (by omega) (by omega)
    obtain ⟨a, b, c, habc⟩ :=
      List.length_eq_three.mp (padMin_len_exact 3 s hls)
    obtain ⟨d, e, hde⟩ := List.length_eq_two.mp (padMin_len_exact 2 m hlm)
    have hdata : (normalize_chain_id s m).data =
        ['R', 'F', 'C', '-'] ++ (padMin 3 s).data ++ ['-'] ++ (padMin 2 m).data := by
      simp [normalize_chain_id, String.data_append]
    rw [habc, hde] at hdata
    have ha := padMin_all_dig 3 s a (by rw [habc]; simp)
    have hb := padMin_all_dig 3 s b (by rw [habc]; simp)
    have hc := padMin_all_dig 3 s c (by rw [habc]; simp)
    have hd := padMin_all_dig 2 m d (by rw [hde]; simp)
    have he := padMin_all_dig 2 m e (by rw [hde]; simp)
    unfold isCanonicalChainId
    rw [hdata]
    simp [ha, hb, hc, hd, he]

/-- C9 (witness): the amended rendering at a concrete title: the padded
identifier for `Game-RFC-93-2` is the ten-character `RFC-093-02`. -/
theorem C9_extraction_witness :
    ∃ s m : Nat, searchChain ("Game-RFC-93-2 fix".data) = some (s, m) ∧
      "RFC-093-02" = normalize_chain_id s m ∧
      extract_series_micro "Game-RFC-93-2 fix" = some "RFC-093-02" ∧
      s < 10000 ∧ m < 1000 ∧
      3 ≤ (padMin 3 s).data.length ∧ 2 ≤ (padMin 2 m).data.length ∧
      (∀ c ∈ (padMin 3 s).data, isDig c = true) ∧
      (∀ c ∈ (padMin 2 m).data, isDig c = true) ∧
      (s ≤ 999 → m ≤ 99 → isCanonicalChainId "RFC-093-02" = true) :=
  C9_extraction_zero_padded "Game-RFC-93-2 fix" "RFC-093-02" (by decide)


/-- Helper: overwriting key `k` does not change lookups of other keys. -/
theorem dictSet_get_other (d : List (String × String)) (k v k' : String)
    (h : k' ≠ k) : dictGet k' (dictSet d k v) = dictGet k' d := by
  unfold dictSet
  by_cases hany : d.any (fun p => decide (p.1 = k))
  · rw [if_pos (by simpa using hany)]
    clear hany
    induction d with
    | nil => rfl
    | cons p d ih =>
      simp only [List.map_cons]
      by_cases hp : p.1 = k
      · rw [if_pos hp]
        show (if k = k' then some v else _) = if p.1 = k' then some p.2 else _
        rw [if_neg (fun hh => h hh.symm), if_neg (fun hh => h (hp ▸ hh).symm)]
        exact ih
      · rw [if_neg hp]
        show (if p.1 = k' then some p.2 else _) = if p.1 = k' then some p.2 else _
        by_cases hk' : p.1 = k'
        · rw [if_pos hk', if_pos hk']
        · rw [if_neg hk', if_neg hk']
          exact ih
  · rw [if_neg (by simpa using hany)]
    clear hany
    induction d with
    | nil =>
      show (if k = k' then some v else none) = none
      rw [if_neg (fun hh => h hh.symm)]
    | cons p d ih =>
      show (if p.1 = k' then some p.2 else _) = if p.1 = k' then some p.2 else _
      by_cases hk' : p.1 = k'
      · rw [if_pos hk', if_pos hk']
      · rw [if_neg hk', if_neg hk']
        exact ih

/-- Helper: after overwriting key `k`, looking `k` up finds the new
value. -/
theorem dictSet_get_self (d : List (String × String)) (k v : String) :
    dictGet k (dictSet d k v) = some v := by
  unfold dictSet
  by_cases hany : (d.any (fun p => decide (p.1 = k))) = true
  · rw [if_pos (by simpa using hany)]
    induction d with
    | nil => simp at hany
    | cons p d ih =>
      simp only [List.map_cons]
      by_cases hp : p.1 = k
      · rw [if_pos hp]
        show (if k = k then some v else _) = some v
        rw [if_pos rfl]
      · have hany' : (d.any (fun p => decide (p.1 = k))) = true := by
          simp only [List.any_cons, Bool.or_eq_true, decide_eq_true_eq] at hany
          rcases hany with hx | hx
          · exact absurd hx hp
          · simpa using hx
        rw [if_neg hp]
        show (if p.1 = k then some p.2 else _) = some v
        rw [if_neg hp]
        exact ih hany'
  · rw [if_neg (by simpa using hany)]
    induction d with
    | nil =>
      show (if k = k then some v else none) = some v
      rw [if_pos rfl]
    | cons p d ih =>
      simp only [List.any_cons, Bool.or_eq_true, decide_eq_true_eq,
        not_or] at hany
      show (if p.1 = k then some p.2 else _) = some v
      rw [if_neg hany.1]
      exact ih (by simpa using hany.2)

/-- Helper: updating with a mapping that avoids key `k` leaves `k`'s
lookup unchanged. -/
theorem dictUpdate_get_not_mem (m : List (String × String)) (k : String)
    (hk : ∀ p ∈ m, p.1 ≠ k) :
    ∀ acc, dictGet k (dictUpdate acc m) = dictGet k acc := by
  induction m with
  | nil => intro acc; rfl
  | cons p m ih =>
    intro acc
    calc dictGet k (dictUpdate acc (p :: m))
        = dictGet k (dictUpdate (dictSet acc p.1 p.2) m) := rfl
      _ = dictGet k (dictSet acc p.1 p.2) :=
          ih (fun q hq => hk q (by simp [hq])) (dictSet acc p.1 p.2)
      _ = dictGet k acc :=
          dictSet_get_other acc p.1 p.2 k (fun hh => hk p (by simp) hh.symm)

/-- Helper: with duplicate-free keys, updating transfers each of the
mapping's own bindings. -/
theorem dictUpdate_get_mem (m : List (String × String)) (k v : String)
    (hnd : (m.map Prod.fst).Nodup) (hv : dictGet k m = some v) :
    ∀ acc, dictGet k (dictUpdate acc m) = some v := by
  induction m with
  | nil => intro acc; exact Option.noConfusion hv
  | cons p m ih =>
    intro acc
    by_cases hk : p.1 = k
    · have hv' : v = p.2 := by
        unfold dictGet at hv
        rw [if_pos hk] at hv
        exact (Option.some.inj hv).symm
      have hnotin : ∀ q ∈ m, q.1 ≠ k := by
        intro q hq hqk
        simp only [List.map_cons, List.nodup_cons] at hnd
        exact hnd.1 (hk ▸ hqk ▸ List.mem_map_of_mem Prod.fst hq)
      calc dictGet k (dictUpdate acc (p :: m))
          = dictGet k (dictSet acc p.1 p.2) :=
            dictUpdate_get_not_mem m k hnotin (dictSet acc p.1 p.2)
        _ = some v := by rw [hk, dictSet_get_self, hv']
    · have hv' : dictGet k m = some v := by
        unfold dictGet at hv
        rwa [if_neg hk] at hv
      have hnd' : (m.map Prod.fst).Nodup := by
        simp only [List.map_cons, List.nodup_cons] at hnd
        exact hnd.2
      exact ih hnd' hv' (dictSet acc p.1 p.2)

/-- Helper: a failed lookup means no binding carries the key. -/
theorem dictGet_eq_none_forall (m : List (String × String)) (k : String)
    (h : dictGet k m = none) : ∀ p ∈ m, p.1 ≠ k := by
  induction m with
  | nil => intro p hp; exact absurd hp (List.not_mem_nil p)
  | cons q m ih =>
    intro p hp
    unfold dictGet at h
    by_cases hk : q.1 = k
    · rw [if_pos hk] at h
      exact Option.noConfusion h
    · rw [if_neg hk] at h
      rcases List.mem_cons.mp hp with rfl | hmem
      · exact hk
      · exact ih h p hmem

/-- Helper: the `content` entry of the payload holds the normalized
content whenever the metadata avoids the key `content`. -/
theorem payload_get_content (t : String) (m : List (String × String))
    (hc : ∀ p ∈ m, p.1 ≠ "content") :
    dictGet "content" (payloadOf t m) = some (normalize_content t) := by
  unfold payloadOf
  by_cases hm : m.isEmpty
  · rw [if_pos hm]
    rfl
  · rw [if_neg hm]
    rw [dictUpdate_get_not_mem m "content" hc]
    rfl

/-- Helper: for any other key the payload lookup agrees with the
metadata lookup. -/
theorem payload_get_other (t : String) (m : List (String × String))
    (k : String) (hk : k ≠ "content") (hnd : (m.map Prod.fst).Nodup) :
    dictGet k (payloadOf t m) = dictGet k m := by
  unfold payloadOf
  by_cases hm : m.isEmpty
  · rw [if_pos hm]
    obtain rfl : m = [] := List.isEmpty_iff.mp hm
    show (if ("content" : String) = k then _ else none) = none
    rw [if_neg (fun hh => hk hh.symm)]
  · rw [if_neg hm]
    rcases hv : dictGet k m with - | v
    · rw [dictUpdate_get_not_mem m k (dictGet_eq_none_forall m k hv)]
      show (if ("content" : String) = k then _ else none) = none
      rw [if_neg (fun hh => hk hh.symm)]
    · rw [dictUpdate_get_mem m k v hnd hv]

/-- C4 (counterexample): the metadata is merged into the payload with
`payload.update(extra)`, so a metadata field named `content` OVERWRITES
the normalized content.  With `extra = {"content": "x"}`, the texts
`"a"` and `"b"` normalize differently yet hash identically, refuting the
claimed converse direction. -/
theorem C4_counterexample_content_key_collision :
    stable_hash "a" [("content", "x")] = stable_hash "b" [("content", "x")] ∧
    normalize_content "a" ≠ normalize_content "b" := by
  refine ⟨?_, by decide⟩
  exact congrArg (fun bs => sha256Hex (utf8Encode bs))
    (by decide : hashInput "a" [("content", "x")]
      = hashInput "b" [("content", "x")])

/-- Helper: a key absent from every binding looks up to `none`. -/
theorem dictGet_eq_none_of_forall (m : List (String × String)) (k : String)
    (h : ∀ p ∈ m, p.1 ≠ k) : dictGet k m = none := by
  induction m with
  | nil => rfl
  | cons p m ih =>
    unfold dictGet
    rw [if_neg (h p (by simp))]
    exact ih (fun q hq => h q (by simp [hq]))

/-- C4 (amended): for metadata mappings with duplicate-free keys that do
not use the reserved key `content`: equal normalized content and equal
metadata give equal hashes; if the normalized contents differ, the
payload mappings fed to the serializer-and-hash differ (at the `content`
field), and if the metadata differ in the value of any field, the
payload mappings likewise differ (at that field) -- distinct hashes then
follow unless SHA-256 collides on the two serialized payloads.  The
original claim is false when a metadata field is named `content` (see
the counterexample): the hypothesis excluding that key is required. -/
theorem C4_stable_hash_classification (t1 t2 : String)
    (m1 m2 : List (String × String))
    (hnd1 : (m1.map Prod.fst).Nodup) (hnd2 : (m2.map Prod.fst).Nodup)
    (hc1 : ∀ p ∈ m1, p.1 ≠ "content") (hc2 : ∀ p ∈ m2, p.1 ≠ "content") :
    (normalize_content t1 = normalize_content t2 → m1 = m2 →
      stable_hash t1 m1 = stable_hash t2 m2) ∧
    (normalize_content t1 ≠ normalize_content t2 →
      payloadOf t1 m1 ≠ payloadOf t2 m2) ∧
    (∀ k, dictGet k m1 ≠ dictGet k m2 →
      payloadOf t1 m1 ≠ payloadOf t2 m2) := by
  refine ⟨?_, ?_, ?_⟩
  · intro hn hm
    subst hm
    show sha256Hex (utf8Encode (jsonDumpsSorted (payloadOf t1 m1))) = _
    unfold payloadOf
    rw [hn]
    rfl
  · intro hn heq
    apply hn
    have h1 := payload_get_content t1 m1 hc1
    have h2 := payload_get_content t2 m2 hc2
    rw [heq] at h1
    exact Option.some.inj (h1.symm.trans h2)
  · intro k hk heq
    apply hk
    have hkc : k ≠ "content" := by
      intro hkk
      subst hkk
      exact hk ((dictGet_eq_none_of_forall m1 "content" hc1).trans
        (dictGet_eq_none_of_forall m2 "content" hc2).symm)
    have h1 := payload_get_other t1 m1 k hkc hnd1
    have h2 := payload_get_other t2 m2 k hkc hnd2
    rw [heq] at h1
    exact h1.symm.trans h2

/-- C4 (witness): the amended classification at concrete inputs: equal
CRLF-normalized content and an equal one-field metadata mapping hash
identically. -/
theorem C4_stable_hash_witness :
    (normalize_content "A\r\nB" = normalize_content "A\nB" →
      [("ts", "1")] = [("ts", "1")] →
      stable_hash "A\r\nB" [("ts", "1")] = stable_hash "A\nB" [("ts", "1")]) ∧
    (normalize_content "A\r\nB" ≠ normalize_content "A\nB" →
      payloadOf "A\r\nB" [("ts", "1")] ≠ payloadOf "A\nB" [("ts", "1")]) ∧
    (∀ k, dictGet k [("ts", "1")] ≠ dictGet k [("ts", "1")] →
      payloadOf "A\r\nB" [("ts", "1")] ≠ payloadOf "A\nB" [("ts", "1")]) :=
  C4_stable_hash_classification "A\r\nB" "A\nB" [("ts", "1")] [("ts", "1")]
    (by simp) (by simp) (by simp) (by simp)

/-- Helper: `dropWhile` is the identity when the head fails the
predicate. -/
theorem dropWhile_eq_self_of_head {α : Type} (p : α → Bool) :
    ∀ (l : List α), (∀ c ∈ l.head?, p c = false) → List.dropWhile p l = l := by
  intro l h
  cases l with
  | nil => rfl
  | cons c t =>
    rw [List.dropWhile_cons, if_neg]
    simp only [List.head?_cons, Option.mem_some_iff] at h
    simp [h c rfl]

/-- Helper: the head of a `dropWhile` result fails the predicate. -/
theorem dropWhile_head_false {α : Type} (p : α → Bool) :
    ∀ (l : List α), ∀ c ∈ (List.dropWhile p l).head?, p c = false := by
  intro l
  induction l with
  | nil => intro c hc; simp at hc
  | cons a t ih =>
    intro c hc
    rw [List.dropWhile_cons] at hc
    by_cases hp : p a
    · rw [if_pos hp] at hc
      exact ih c hc
    · rw [if_neg hp] at hc
      simp only [List.head?_cons, Option.mem_some_iff] at hc
      subst hc
      simpa using hp

theorem dropWhile_pyWs_idem (l : List Char) :
    List.dropWhile pyWs (List.dropWhile pyWs l) = List.dropWhile pyWs l :=
  dropWhile_eq_self_of_head pyWs _ (dropWhile_head_false pyWs l)

theorem mem_lstripL {c : Char} {l : List Char} (h : c ∈ lstripL l) : c ∈ l :=
  (List.dropWhile_suffix pyWs).sublist.subset h

theorem mem_rstripL {c : Char} {l : List Char} (h : c ∈ rstripL l) : c ∈ l := by
  rw [rstripL, List.mem_reverse] at h
  exact List.mem_reverse.mp ((List.dropWhile_suffix pyWs).sublist.subset h)

theorem mem_stripL {c : Char} {l : List Char} (h : c ∈ stripL l) : c ∈ l :=
  mem_lstripL (mem_rstripL h)

theorem rstripL_nil : rstripL [] = [] := rfl

theorem rstripL_idem (l : List Char) : rstripL (rstripL l) = rstripL l := by
  unfold rstripL
  rw [List.reverse_reverse, dropWhile_pyWs_idem]

theorem lstripL_idem (l : List Char) : lstripL (lstripL l) = lstripL l :=
  dropWhile_pyWs_idem l

/-- Helper: characterisation of blank lines. -/
theorem isBlankL_iff (l : List Char) :
    isBlankL l = true ↔ ∀ c ∈ l, pyWs c = true := by
  simp [isBlankL, List.all_eq_true]

theorem rstripL_of_blank {l : List Char} (h : isBlankL l = true) :
    rstripL l = [] := by
  unfold rstripL
  have : List.dropWhile pyWs l.reverse = [] := by
    rw [List.dropWhile_eq_nil_iff]
    intro c hc
    exact (isBlankL_iff l).mp h c (List.mem_reverse.mp hc)
  rw [this]
  rfl

theorem lstripL_of_blank {l : List Char} (h : isBlankL l = true) :
    lstripL l = [] := by
  unfold lstripL
  rw [List.dropWhile_eq_nil_iff]
  intro c hc
  exact (isBlankL_iff l).mp h c hc

/-- Helper: right-stripping does not change blankness. -/
theorem isBlankL_rstripL (l : List Char) : isBlankL (rstripL l) = isBlankL l := by
  cases hb : isBlankL l
  · have : ¬∀ c ∈ l, pyWs c = true := by
      intro hall
      rw [(isBlankL_iff l).mpr hall] at hb
      exact Bool.noConfusion hb
    push_neg at this
    obtain ⟨c, hc, hcw⟩ := this
    have hcrev : c ∈ l.reverse := List.mem_reverse.mpr hc
    have : c ∈ rstripL l := by
      rw [rstripL, List.mem_reverse]
      rcases List.mem_append.mp
          ((List.takeWhile_append_dropWhile pyWs l.reverse) ▸ hcrev) with h1 | h1
      · exact absurd (List.mem_takeWhile_imp h1) (by simpa using hcw)
      · exact h1
    cases hb' : isBlankL (rstripL l)
    · rfl
    · exact absurd ((isBlankL_iff _).mp hb' c this) (by simpa using hcw)
  · rw [rstripL_of_blank hb]
    decide

/-- Helper: left-stripping does not change blankness. -/
theorem isBlankL_lstripL (l : List Char) : isBlankL (lstripL l) = isBlankL l := by
  cases hb : isBlankL l
  · have : ¬∀ c ∈ l, pyWs c = true := by
      intro hall
      rw [(isBlankL_iff l).mpr hall] at hb
      exact Bool.noConfusion hb
    push_neg at this
    obtain ⟨c, hc, hcw⟩ := this
    have : c ∈ lstripL l := by
      unfold lstripL
      rcases List.mem_append.mp
          ((List.takeWhile_append_dropWhile pyWs l) ▸ hc) with h1 | h1
      · exact absurd (List.mem_takeWhile_imp h1) (by simpa using hcw)
      · exact h1
    cases hb' : isBlankL (lstripL l)
    · rfl
    · exact absurd ((isBlankL_iff _).mp hb' c this) (by simpa using hcw)
  · rw [lstripL_of_blank hb]
    decide

/-- Helper: a list whose last character is not whitespace is already
right-stripped. -/
theorem rstripL_eq_self_of_last {l : List Char}
    (h : ∀ c ∈ l.getLast?, pyWs c = false) : rstripL l = l := by
  unfold rstripL
  rw [dropWhile_eq_self_of_head pyWs l.reverse
    (by rw [List.head?_reverse]; exact h), List.reverse_reverse]

/-- Helper: a right-stripped list has no trailing whitespace. -/
theorem last_not_ws_of_rstripped {l : List Char} (h : rstripL l = l) :
    ∀ c ∈ l.getLast?, pyWs c = false := by
  intro c hc
  have hrev : List.dropWhile pyWs l.reverse = l.reverse := by
    have := congrArg List.reverse h
    rwa [rstripL, List.reverse_reverse] at this
  rw [← List.head?_reverse] at hc
  cases hl : l.reverse with
  | nil => rw [hl] at hc; simp at hc
  | cons a t =>
    rw [hl] at hrev hc
    simp only [List.head?_cons, Option.mem_some_iff] at hc
    subst hc
    rw [List.dropWhile_cons] at hrev
    by_cases hp : pyWs a
    · rw [if_pos hp] at hrev
      have := congrArg List.length hrev
      simp only [List.length_cons] at this
      have hle : (List.dropWhile pyWs t).length ≤ t.length :=
        (List.dropWhile_suffix pyWs).sublist.length_le
      omega
    · simpa using hp

/-- Helper: left-stripping preserves right-strippedness. -/
theorem rstripL_lstripL {l : List Char} (h : rstripL l = l) :
    rstripL (lstripL l) = lstripL l := by
  rcases hl : lstripL l with - | ⟨a, t⟩
  · rfl
  · apply rstripL_eq_self_of_last
    have hsuf : lstripL l <:+ l := List.dropWhile_suffix pyWs
    obtain ⟨pre, hpre⟩ := hsuf
    have hlast : (a :: t).getLast? = l.getLast? := by
      conv_rhs => rw [← hpre, hl]
      rw [List.getLast?_append]
      rcases hg : (a :: t).getLast? with - | x
      · exact absurd hg (by simp)
      · rfl
    rw [hlast]
    exact last_not_ws_of_rstripped h

/-- Helper: `split` never returns an empty list of pieces. -/
theorem splitNl_ne_nil : ∀ (s : List Char), splitNl s ≠ [] := by
  intro s
  cases s with
  | nil => simp [splitNl]
  | cons c cs =>
    rw [splitNl]
    by_cases hc : c = '\n'
    · rw [if_pos hc]
      simp
    · rw [if_neg hc]
      rcases h : splitNl cs with - | ⟨l, ls⟩ <;> simp

/-- Helper: `join` is a left inverse of `split`. -/
theorem joinNl_splitNl : ∀ (s : List Char), joinNl (splitNl s) = s := by
  intro s
  induction s with
  | nil => rfl
  | cons c cs ih =>
    rw [splitNl]
    by_cases hc : c = '\n'
    · rw [if_pos hc]
      rcases h : splitNl cs with - | ⟨l, ls⟩
      · exact absurd h (splitNl_ne_nil cs)
      · rw [h] at ih
        subst hc
        show List.nil ++ '\n' :: joinNl (l :: ls) = '\n' :: cs
        rw [List.nil_append, ih]
    · rw [if_neg hc]
      rcases h : splitNl cs with - | ⟨l, ls⟩
      · exact absurd h (splitNl_ne_nil cs)
      · rw [h] at ih
        cases ls with
        | nil =>
          show c :: l = c :: cs
          rw [show joinNl [l] = l from rfl] at ih
          rw [ih]
        | cons l2 ls2 =>
          show (c :: l) ++ '\n' :: joinNl (l2 :: ls2) = c :: cs
          rw [List.cons_append]
          rw [show l ++ '\n' :: joinNl (l2 :: ls2) = joinNl (l :: l2 :: ls2)
            from rfl, ih]

/-- Helper: no piece of `split` contains a newline. -/
theorem splitNl_no_nl : ∀ (s : List Char), ∀ l ∈ splitNl s, '\n' ∉ l := by
  intro s
  induction s with
  | nil => intro l hl; simp [splitNl] at hl; simp [hl]
  | cons c cs ih =>
    intro l hl
    rw [splitNl] at hl
    by_cases hc : c = '\n'
    · rw [if_pos hc] at hl
      rcases List.mem_cons.mp hl with rfl | hmem
      · simp
      · exact ih l hmem
    · rw [if_neg hc] at hl
      rcases h : splitNl cs with - | ⟨l0, ls⟩
      · exact absurd h (splitNl_ne_nil cs)
      · rw [h] at hl
        rcases List.mem_cons.mp hl with rfl | hmem
        · intro hin
          rcases List.mem_cons.mp hin with rfl | hin2
          · exact hc rfl
          · exact ih l0 (h ▸ List.mem_cons_self l0 ls) hin2
        · exact ih l (h ▸ List.mem_cons.mpr (Or.inr hmem))

/-- Helper: every character of a `split` piece is a character of the
source text. -/
theorem splitNl_mem_subset : ∀ (s : List Char), ∀ l ∈ splitNl s, ∀ c ∈ l,
    c ∈ s := by
  intro s
  induction s with
  | nil => intro l hl c hc; simp [splitNl] at hl; subst hl; simp at hc
  | cons a cs ih =>
    intro l hl c hc
    rw [splitNl] at hl
    by_cases ha : a = '\n'
    · rw [if_pos ha] at hl
      rcases List.mem_cons.mp hl with rfl | hmem
      · simp at hc
      · exact List.mem_cons.mpr (Or.inr (ih l hmem c hc))
    · rw [if_neg ha] at hl
      rcases h : splitNl cs with - | ⟨l0, ls⟩
      · exact absurd h (splitNl_ne_nil cs)
      · rw [h] at hl
        rcases List.mem_cons.mp hl with rfl | hmem
        · rcases List.mem_cons.mp hc with rfl | hc2
          · exact List.mem_cons_self c cs
          · exact List.mem_cons.mpr
              (Or.inr (ih l0 (h ▸ List.mem_cons_self l0 ls) c hc2))
        · exact List.mem_cons.mpr
            (Or.inr (ih l (h ▸ List.mem_cons.mpr (Or.inr hmem)) c hc))

/-- Helper: every character of a join is a newline or a character of some
line. -/
theorem joinNl_mem : ∀ (L : List (List Char)), ∀ c ∈ joinNl L,
    c = '\n' ∨ ∃ l ∈ L, c ∈ l := by
  intro L
  induction L with
  | nil => intro c hc; simp [joinNl] at hc
  | cons l ls ih =>
    intro c hc
    cases ls with
    | nil =>
      exact Or.inr ⟨l, by simp, hc⟩
    | cons l2 ls2 =>
      rw [show joinNl (l :: l2 :: ls2) = l ++ '\n' :: joinNl (l2 :: ls2)
        from rfl] at hc
      rcases List.mem_append.mp hc with h1 | h1
      · exact Or.inr ⟨l, by simp, h1⟩
      · rcases List.mem_cons.mp h1 with rfl | h2
        · exact Or.inl rfl
        · rcases ih c h2 with h3 | ⟨l3, hl3, hc3⟩
          · exact Or.inl h3
          · exact Or.inr ⟨l3, List.mem_cons.mpr (Or.inr hl3), hc3⟩

/-- Helper: a newline-free text splits into itself. -/
theorem splitNl_of_no_nl : ∀ (l : List Char), '\n' ∉ l → splitNl l = [l] := by
  intro l
  induction l with
  | nil => intro _; rfl
  | cons c cs ih =>
    intro h
    rw [splitNl, if_neg (fun hc => h (by rw [← hc]; exact List.mem_cons_self c cs)),
      ih (fun hin => h (List.mem_cons.mpr (Or.inr hin)))]

/-- Helper: splitting at the first emitted newline peels off the first
line. -/
theorem splitNl_append_nl : ∀ (l rest : List Char), '\n' ∉ l →
    splitNl (l ++ '\n' :: rest) = l :: splitNl rest := by
  intro l
  induction l with
  | nil => intro rest _; rw [List.nil_append, splitNl, if_pos rfl]
  | cons c cs ih =>
    intro rest h
    rw [List.cons_append, splitNl,
      if_neg (fun hc => h (by rw [← hc]; exact List.mem_cons_self c cs)),
      ih rest (fun hin => h (List.mem_cons.mpr (Or.inr hin)))]

/-- Helper: `split` is a left inverse of `join` on nonempty lists of
newline-free lines. -/
theorem splitNl_joinNl : ∀ (L : List (List Char)), L ≠ [] →
    (∀ l ∈ L, '\n' ∉ l) → splitNl (joinNl L) = L := by
  intro L
  induction L with
  | nil => intro h _; exact absurd rfl h
  | cons l ls ih =>
    intro _ hnl
    cases ls with
    | nil =>
      show splitNl (joinNl [l]) = [l]
      rw [show joinNl [l] = l from rfl,
        splitNl_of_no_nl l (hnl l (by simp))]
    | cons l2 ls2 =>
      rw [show joinNl (l :: l2 :: ls2) = l ++ '\n' :: joinNl (l2 :: ls2)
        from rfl,
        splitNl_append_nl l _ (hnl l (by simp)),
        ih (by simp) (fun x hx => hnl x (List.mem_cons.mpr (Or.inr hx)))]

/-- Helper: every kept line of the blank-collapsing loop is the right
strip of an input line. -/
theorem collapseBlanks_mem : ∀ (L : List (List Char)) (b : Nat),
    ∀ x ∈ collapseBlanks b L, ∃ l ∈ L, x = rstripL l := by
  intro L
  induction L with
  | nil => intro b x hx; simp [collapseBlanks] at hx
  | cons l ls ih =>
    intro b x hx
    rw [collapseBlanks] at hx
    by_cases hb : isBlankL l
    · rw [if_pos hb] at hx
      by_cases hgt : b + 1 > 1
      · rw [if_pos hgt] at hx
        obtain ⟨l0, hl0, hx0⟩ := ih (b + 1) x hx
        exact ⟨l0, List.mem_cons.mpr (Or.inr hl0), hx0⟩
      · rw [if_neg hgt] at hx
        rcases List.mem_cons.mp hx with rfl | hmem
        · exact ⟨l, List.mem_cons_self l ls, rfl⟩
        · obtain ⟨l0, hl0, hx0⟩ := ih (b + 1) x hmem
          exact ⟨l0, List.mem_cons.mpr (Or.inr hl0), hx0⟩
    · rw [if_neg hb] at hx
      rcases List.mem_cons.mp hx with rfl | hmem
      · exact ⟨l, List.mem_cons_self l ls, rfl⟩
      · obtain ⟨l0, hl0, hx0⟩ := ih 0 x hmem
        exact ⟨l0, List.mem_cons.mpr (Or.inr hl0), hx0⟩

/-- Helper: below a positive blank counter the loop's next kept line is
not blank. -/
theorem collapseBlanks_head_nonblank : ∀ (L : List (List Char)) (b : Nat),
    1 ≤ b → ∀ x ∈ (collapseBlanks b L).head?, isBlankL x = false := by
  intro L
  induction L with
  | nil => intro b _ x hx; simp [collapseBlanks] at hx
  | cons l ls ih =>
    intro b hb x hx
    rw [collapseBlanks] at hx
    by_cases hbl : isBlankL l
    · rw [if_pos hbl, if_pos (by omega)] at hx
      exact ih (b + 1) (by omega) x hx
    · rw [if_neg hbl] at hx
      simp only [List.head?_cons, Option.mem_some_iff] at hx
      subst hx
      rw [isBlankL_rstripL]
      simpa using hbl

/-- Helper: the collapsed output never holds two adjacent blank lines. -/
theorem collapseBlanks_chain : ∀ (L : List (List Char)) (b : Nat),
    List.Chain' nbPair (collapseBlanks b L) := by
  intro L
  induction L with
  | nil => intro b; simp [collapseBlanks]
  | cons l ls ih =>
    intro b
    rw [collapseBlanks]
    by_cases hbl : isBlankL l
    · rw [if_pos hbl]
      by_cases hgt : b + 1 > 1
      · rw [if_pos hgt]
        exact ih (b + 1)
      · rw [if_neg hgt]
        rw [List.chain'_cons']
        refine ⟨?_, ih (b + 1)⟩
        intro y hy
        have := collapseBlanks_head_nonblank ls (b + 1) (by omega) y hy
        intro hpair
        rw [this] at hpair
        exact Bool.noConfusion hpair.2
    · rw [if_neg hbl]
      rw [List.chain'_cons']
      refine ⟨?_, ih 0⟩
      intro y hy
      intro hpair
      rw [isBlankL_rstripL] at hpair
      exact hbl hpair.1

/-- Helper: the collapsing loop leaves an already-collapsed list
unchanged. -/
theorem collapseBlanks_id : ∀ (L : List (List Char)) (b : Nat),
    (∀ l ∈ L, rstripL l = l) → List.Chain' nbPair L →
    (1 ≤ b → ∀ x ∈ L.head?, isBlankL x = false) → collapseBlanks b L = L := by
  intro L
  induction L with
  | nil => intro b _ _ _; rfl
  | cons l ls ih =>
    intro b hr hch hhd
    rw [collapseBlanks]
    by_cases hbl : isBlankL l
    · have hb0 : b = 0 := by
        by_contra hb
        have := hhd (by omega) l (by simp)
        rw [hbl] at this
        exact Bool.noConfusion this
      subst hb0
      rw [if_pos hbl, if_neg (by omega), hr l (by simp)]
      congr 1
      refine ih 1 (fun x hx => hr x (List.mem_cons.mpr (Or.inr hx)))
        (List.Chain'.tail hch) ?_
      intro _ x hx
      have hpair := (List.chain'_cons'.mp hch).1 x hx
      unfold nbPair at hpair
      cases hx2 : isBlankL x
      · rfl
      · exact absurd ⟨hbl, hx2⟩ hpair
    · rw [if_neg hbl, hr l (by simp)]
      congr 1
      exact ih 0 (fun x hx => hr x (List.mem_cons.mpr (Or.inr hx)))
        (List.Chain'.tail hch) (fun hcontra => absurd hcontra (by omega))

/-- Helper: dropping trailing blanks yields a prefix of the input. -/
theorem dropTrailingBlanks_front (L : List (List Char)) :
    dropTrailingBlanks L <+: L := by
  rw [dropTrailingBlanks, ← List.reverse_suffix, List.reverse_reverse]
  exact List.dropWhile_suffix isBlankL

/-- Helper: after dropping trailing blanks the last line is not blank. -/
theorem dropTrailingBlanks_last (L : List (List Char)) :
    ∀ x ∈ (dropTrailingBlanks L).getLast?, isBlankL x = false := by
  intro x hx
  rw [dropTrailingBlanks, List.getLast?_reverse] at hx
  exact dropWhile_head_false isBlankL L.reverse x hx

/-- Helper: a list whose last line is not blank keeps all its lines. -/
theorem dropTrailingBlanks_id (L : List (List Char))
    (h : ∀ x ∈ L.getLast?, isBlankL x = false) : dropTrailingBlanks L = L := by
  rw [dropTrailingBlanks,
    dropWhile_eq_self_of_head isBlankL L.reverse
      (by rw [List.head?_reverse]; exact h),
    List.reverse_reverse]

/-- Helper: joining onto a nonempty tail inserts a newline. -/
theorem joinNl_cons_ne (a : List Char) (M : List (List Char)) (h : M ≠ []) :
    joinNl (a :: M) = a ++ '\n' :: joinNl M := by
  cases M with
  | nil => exact absurd rfl h
  | cons b ms => rfl

/-- Helper: the last character of joined lines is the last character of the
last line, when that line is nonempty. -/
theorem joinNl_getLast : ∀ (M : List (List Char)) (l : List Char),
    M.getLast? = some l → l ≠ [] → (joinNl M).getLast? = l.getLast? := by
  intro M
  induction M with
  | nil => intro l hl _; simp at hl
  | cons a ms ih =>
    intro l hl hne
    cases ms with
    | nil =>
      have ha : a = l := by simpa using hl
      subst ha
      rfl
    | cons b ms2 =>
      have hl2 : (b :: ms2).getLast? = some l := by
        rw [List.getLast?_cons_cons] at hl
        exact hl
      have hJ := ih l hl2 hne
      rw [joinNl_cons_ne a (b :: ms2) (by simp)]
      have hJne : joinNl (b :: ms2) ≠ [] := by
        intro h0
        rw [h0] at hJ
        rcases l with - | ⟨c, cs⟩
        · exact hne rfl
        · rw [List.getLast?_eq_getLast (c :: cs) (by simp)] at hJ
          exact Option.noConfusion hJ
      rw [List.getLast?_append_of_ne_nil a (List.cons_ne_nil _ _),
        show ('\n' :: joinNl (b :: ms2)) = ['\n'] ++ joinNl (b :: ms2) from rfl,
        List.getLast?_append_of_ne_nil ['\n'] hJne]
      exact hJ

/-- Helper: a line that is not all-whitespace left-strips to a nonempty
line. -/
theorem lstripL_ne_nil_of_nonblank {l : List Char} (h : isBlankL l = false) :
    lstripL l ≠ [] := by
  intro h0
  have hbl := isBlankL_lstripL l
  rw [h0, h] at hbl
  exact absurd hbl (by decide)

/-- Helper: left-stripping the joined lines drops the leading blank lines
and left-strips the first kept line. -/
theorem lstripL_joinNl : ∀ (L : List (List Char)),
    lstripL (joinNl L) = joinNl (fixLead L) := by
  intro L
  induction L with
  | nil => rfl
  | cons l ls ih =>
    cases ls with
    | nil =>
      show lstripL l = joinNl (fixLead [l])
      rw [fixLead]
      by_cases hb : isBlankL l
      · rw [if_pos hb]
        exact lstripL_of_blank hb
      · rw [if_neg hb]
        rfl
    | cons b ms =>
      rw [joinNl_cons_ne l (b :: ms) (by simp), fixLead]
      by_cases hb : isBlankL l
      · rw [if_pos hb, ← ih]
        simp only [lstripL, List.dropWhile_append]
        have h1 : List.dropWhile pyWs l = [] := lstripL_of_blank hb
        rw [h1]
        simp only [List.isEmpty_nil, if_true]
        rw [List.dropWhile_cons, if_pos (by decide)]
      · rw [if_neg hb, joinNl_cons_ne _ (b :: ms) (by simp)]
        simp only [lstripL, List.dropWhile_append]
        have h1 : ¬(List.dropWhile pyWs l).isEmpty = true := by
          intro hE
          exact lstripL_ne_nil_of_nonblank (by simpa using hb) (by
            rw [lstripL]
            exact List.isEmpty_iff.mp hE)
        rw [if_neg h1]

/-- Helper: dropping leading blank lines keeps every line right-stripped. -/
theorem fixLead_rstripped : ∀ (L : List (List Char)),
    (∀ l ∈ L, rstripL l = l) → ∀ x ∈ fixLead L, rstripL x = x := by
  intro L
  induction L with
  | nil => intro _ x hx; simp [fixLead] at hx
  | cons l ls ih =>
    intro h x hx
    rw [fixLead] at hx
    by_cases hb : isBlankL l
    · rw [if_pos hb] at hx
      exact ih (fun y hy => h y (List.mem_cons.mpr (Or.inr hy))) x hx
    · rw [if_neg hb] at hx
      rcases List.mem_cons.mp hx with rfl | hmem
      · exact rstripL_lstripL (h l (List.mem_cons_self l ls))
      · exact h x (List.mem_cons.mpr (Or.inr hmem))

/-- Helper: dropping leading blank lines never creates an adjacent blank
pair. -/
theorem fixLead_chain : ∀ (L : List (List Char)),
    List.Chain' nbPair L → List.Chain' nbPair (fixLead L) := by
  intro L
  induction L with
  | nil => intro _; simp [fixLead]
  | cons l ls ih =>
    intro hch
    rw [fixLead]
    by_cases hb : isBlankL l
    · rw [if_pos hb]
      exact ih (List.Chain'.tail hch)
    · rw [if_neg hb, List.chain'_cons']
      obtain ⟨h1, h2⟩ := List.chain'_cons'.mp hch
      refine ⟨?_, h2⟩
      intro y hy
      have hp := h1 y hy
      unfold nbPair at hp ⊢
      rw [isBlankL_lstripL]
      exact hp

/-- Helper: dropping leading blank lines keeps the last line nonblank. -/
theorem fixLead_getLast_nonblank : ∀ (L : List (List Char)),
    (∀ x ∈ L.getLast?, isBlankL x = false) →
    ∀ x ∈ (fixLead L).getLast?, isBlankL x = false := by
  intro L
  induction L with
  | nil => intro _ x hx; simp [fixLead] at hx
  | cons l ls ih =>
    intro h x hx
    rw [fixLead] at hx
    cases ls with
    | nil =>
      have hl : isBlankL l = false := h l (by simp)
      rw [if_neg (by simp [hl])] at hx
      have hxl : lstripL l = x := by simpa using hx
      subst hxl
      rw [isBlankL_lstripL]
      exact hl
    | cons b ms =>
      have hlast : ∀ y ∈ (b :: ms).getLast?, isBlankL y = false := by
        intro y hy
        apply h
        rw [List.getLast?_cons_cons]
        exact hy
      by_cases hb : isBlankL l
      · rw [if_pos hb] at hx
        exact ih hlast x hx
      · rw [if_neg hb] at hx
        rw [List.getLast?_cons_cons] at hx
        exact hlast x hx

/-- Helper: after dropping leading blank lines the first kept line is
nonblank and already left-stripped. -/
theorem fixLead_head : ∀ (L : List (List Char)), ∀ x ∈ (fixLead L).head?,
    isBlankL x = false ∧ lstripL x = x := by
  intro L
  induction L with
  | nil => intro x hx; simp [fixLead] at hx
  | cons l ls ih =>
    intro x hx
    rw [fixLead] at hx
    by_cases hb : isBlankL l
    · rw [if_pos hb] at hx
      exact ih x hx
    · rw [if_neg hb] at hx
      have hxl : lstripL l = x := by simpa using hx
      subst hxl
      refine ⟨?_, lstripL_idem l⟩
      rw [isBlankL_lstripL]
      simpa using hb

/-- Helper: lines surviving the leading-blank drop come from the input,
up to a left strip of the first one. -/
theorem fixLead_mem : ∀ (L : List (List Char)), ∀ x ∈ fixLead L,
    x ∈ L ∨ ∃ l ∈ L, x = lstripL l := by
  intro L
  induction L with
  | nil => intro x hx; simp [fixLead] at hx
  | cons l ls ih =>
    intro x hx
    rw [fixLead] at hx
    by_cases hb : isBlankL l
    · rw [if_pos hb] at hx
      rcases ih x hx with hm | ⟨l0, hl0, he⟩
      · exact Or.inl (List.mem_cons.mpr (Or.inr hm))
      · exact Or.inr ⟨l0, List.mem_cons.mpr (Or.inr hl0), he⟩
    · rw [if_neg hb] at hx
      rcases List.mem_cons.mp hx with rfl | hm
      · exact Or.inr ⟨l, List.mem_cons_self l ls, rfl⟩
      · exact Or.inl (List.mem_cons.mpr (Or.inr hm))

/-- Helper: a list whose first line is nonblank and left-stripped passes
the leading-blank drop unchanged. -/
theorem fixLead_id : ∀ (L : List (List Char)),
    (∀ x ∈ L.head?, isBlankL x = false ∧ lstripL x = x) → fixLead L = L := by
  intro L h
  cases L with
  | nil => rfl
  | cons l ls =>
    obtain ⟨h1, h2⟩ := h l (by simp)
    rw [fixLead, if_neg (by simp [h1]), h2]

/-- Helper: joined lines are right-strip-stable when every line is
right-stripped and the last line is nonblank. -/
theorem rstripL_joinNl_id : ∀ (M : List (List Char)),
    (∀ l ∈ M, rstripL l = l) → (∀ x ∈ M.getLast?, isBlankL x = false) →
    rstripL (joinNl M) = joinNl M := by
  intro M hr hlast
  cases hM : M.getLast? with
  | none =>
    have hnil : M = [] := by
      cases M with
      | nil => rfl
      | cons a ms =>
        rw [List.getLast?_eq_getLast _ (by simp)] at hM
        exact Option.noConfusion hM
    subst hnil
    rfl
  | some l =>
    have hlm : l ∈ M := by
      rcases List.getLast?_eq_some_iff.mp hM with ⟨ys, rfl⟩
      simp
    have hnb : isBlankL l = false := hlast l hM
    have hlne : l ≠ [] := by
      intro h0
      subst h0
      exact absurd hnb (by decide)
    apply rstripL_eq_self_of_last
    rw [joinNl_getLast M l hM hlne]
    exact last_not_ws_of_rstripped (hr l hlm)

/-- Helper: unfolding of the EOL normaliser on a non-CR head. -/
theorem normEol_cons_not_cr (c : Char) (cs : List Char) (h : ¬c = '\r') :
    normEol (c :: cs) = c :: normEol cs := by
  cases cs with
  | nil => simp only [normEol, if_neg h]
  | cons c2 cs2 => simp only [normEol, if_neg h]

/-- Helper: unfolding of the EOL normaliser on a lone CR. -/
theorem normEol_cr_nil : normEol ['\r'] = ['\n'] := rfl

/-- Helper: unfolding of the EOL normaliser on a CR followed by more
text. -/
theorem normEol_cr_cons (c2 : Char) (cs2 : List Char) :
    normEol ('\r' :: c2 :: cs2) =
      if c2 = '\n' then '\n' :: normEol cs2
      else '\n' :: normEol (c2 :: cs2) := by
  simp [normEol]

/-- Helper (fueled): the EOL normaliser's output holds no carriage
return. -/
theorem normEol_no_cr_aux : ∀ (n : Nat) (s : List Char), s.length ≤ n →
    '\r' ∉ normEol s := by
  intro n
  induction n with
  | zero =>
    intro s hs
    have hnil : s = [] := by
      cases s with
      | nil => rfl
      | cons a t => simp at hs
    subst hnil
    simp [normEol]
  | succ n ih =>
    intro s hs
    cases s with
    | nil => simp [normEol]
    | cons c cs =>
      by_cases hc : c = '\r'
      · subst hc
        cases cs with
        | nil => rw [normEol_cr_nil]; decide
        | cons c2 cs2 =>
          rw [normEol_cr_cons]
          by_cases h2 : c2 = '\n'
          · rw [if_pos h2]
            intro hmem
            rcases List.mem_cons.mp hmem with he | hm
            · exact absurd he (by decide)
            · exact ih cs2 (by simp at hs; omega) hm
          · rw [if_neg h2]
            intro hmem
            rcases List.mem_cons.mp hmem with he | hm
            · exact absurd he (by decide)
            · exact ih (c2 :: cs2) (by simp at hs ⊢; omega) hm
      · rw [normEol_cons_not_cr c cs hc]
        intro hmem
        rcases List.mem_cons.mp hmem with he | hm
        · exact hc he.symm
        · exact ih cs (by simp at hs; omega) hm

/-- Helper: the EOL normaliser's output holds no carriage return. -/
theorem normEol_no_cr (s : List Char) : '\r' ∉ normEol s :=
  normEol_no_cr_aux s.length s (Nat.le_refl _)

/-- Helper: the EOL normaliser leaves a CR-free text unchanged. -/
theorem normEol_eq_self : ∀ (s : List Char), '\r' ∉ s → normEol s = s := by
  intro s
  induction s with
  | nil => intro _; rfl
  | cons c cs ih =>
    intro h
    rw [normEol_cons_not_cr c cs (by
        intro hc
        exact h (by rw [← hc]; exact List.mem_cons_self c cs)),
      ih (fun hm => h (List.mem_cons.mpr (Or.inr hm)))]

/-- Helper: invariants of the line list produced by the normaliser before
the final strip: every line right-stripped, no two adjacent blanks, last
line nonblank, no newline and no carriage return inside a line. -/
theorem pipeline_props (raw : List Char) :
    (∀ l ∈ dropTrailingBlanks (collapseBlanks 0 (splitNl (normEol raw))),
      rstripL l = l) ∧
    List.Chain' nbPair
      (dropTrailingBlanks (collapseBlanks 0 (splitNl (normEol raw)))) ∧
    (∀ x ∈ (dropTrailingBlanks
      (collapseBlanks 0 (splitNl (normEol raw)))).getLast?,
      isBlankL x = false) ∧
    (∀ l ∈ dropTrailingBlanks (collapseBlanks 0 (splitNl (normEol raw))),
      '\n' ∉ l) ∧
    (∀ l ∈ dropTrailingBlanks (collapseBlanks 0 (splitNl (normEol raw))),
      '\r' ∉ l) := by
  refine ⟨?_, ?_, ?_, ?_, ?_⟩
  · intro l hl
    have hc := (dropTrailingBlanks_front _).sublist.subset hl
    obtain ⟨l0, _, rfl⟩ := collapseBlanks_mem _ 0 l hc
    exact rstripL_idem l0
  · exact List.Chain'.prefix (collapseBlanks_chain _ 0)
      (dropTrailingBlanks_front _)
  · exact dropTrailingBlanks_last _
  · intro l hl hc
    have hcm := (dropTrailingBlanks_front _).sublist.subset hl
    obtain ⟨l0, hl0, rfl⟩ := collapseBlanks_mem _ 0 l hcm
    exact splitNl_no_nl (normEol raw) l0 hl0 (mem_rstripL hc)
  · intro l hl hc
    have hcm := (dropTrailingBlanks_front _).sublist.subset hl
    obtain ⟨l0, hl0, rfl⟩ := collapseBlanks_mem _ 0 l hcm
    exact normEol_no_cr raw
      (splitNl_mem_subset (normEol raw) l0 hl0 '\r' (mem_rstripL hc))

/-- Helper: invariants of the final line list of the normaliser (after
the leading-blank drop induced by the trailing strip). -/
theorem normalized_props (raw : List Char) :
    (∀ l ∈ fixLead (dropTrailingBlanks (collapseBlanks 0
      (splitNl (normEol raw)))), rstripL l = l) ∧
    List.Chain' nbPair (fixLead (dropTrailingBlanks (collapseBlanks 0
      (splitNl (normEol raw))))) ∧
    (∀ x ∈ (fixLead (dropTrailingBlanks (collapseBlanks 0
      (splitNl (normEol raw))))).getLast?, isBlankL x = false) ∧
    (∀ x ∈ (fixLead (dropTrailingBlanks (collapseBlanks 0
      (splitNl (normEol raw))))).head?,
      isBlankL x = false ∧ lstripL x = x) ∧
    (∀ l ∈ fixLead (dropTrailingBlanks (collapseBlanks 0
      (splitNl (normEol raw)))), '\n' ∉ l) ∧
    (∀ l ∈ fixLead (dropTrailingBlanks (collapseBlanks 0
      (splitNl (normEol raw)))), '\r' ∉ l) := by
  obtain ⟨q1, q2, q3, q4, q5⟩ := pipeline_props raw
  refine ⟨fixLead_rstripped _ q1, fixLead_chain _ q2,
    fixLead_getLast_nonblank _ q3, fixLead_head _, ?_, ?_⟩
  · intro l hl hc
    rcases fixLead_mem _ l hl with hm | ⟨l0, hl0, rfl⟩
    · exact q4 l hm hc
    · exact q4 l0 hl0 (mem_lstripL hc)
  · intro l hl hc
    rcases fixLead_mem _ l hl with hm | ⟨l0, hl0, rfl⟩
    · exact q5 l hm hc
    · exact q5 l0 hl0 (mem_lstripL hc)

/-- Helper: the normaliser's output is the join of the final line list. -/
theorem normalizeL_eq (raw : List Char) :
    normalizeL raw = joinNl (fixLead (dropTrailingBlanks (collapseBlanks 0
      (splitNl (normEol raw))))) := by
  obtain ⟨p1, _, p3, _, _, _⟩ := normalized_props raw
  rw [normalizeL, stripL, lstripL_joinNl]
  exact rstripL_joinNl_id _ p1 p3

/-- Helper: joined lines hold no carriage return when no line does. -/
theorem no_cr_joinNl {M : List (List Char)} (h : ∀ l ∈ M, '\r' ∉ l) :
    '\r' ∉ joinNl M := by
  intro hc
  rcases joinNl_mem M '\r' hc with he | ⟨l, hl, hcl⟩
  · exact absurd he (by decide)
  · exact h l hl hcl

/-- Helper: the normaliser fixes the join of any line list with the
output invariants. -/
theorem normalizeL_joinNl_fixed (M : List (List Char))
    (p1 : ∀ l ∈ M, rstripL l = l) (p2 : List.Chain' nbPair M)
    (p3 : ∀ x ∈ M.getLast?, isBlankL x = false)
    (p4 : ∀ x ∈ M.head?, isBlankL x = false ∧ lstripL x = x)
    (p5 : ∀ l ∈ M, '\n' ∉ l) (p6 : ∀ l ∈ M, '\r' ∉ l) :
    normalizeL (joinNl M) = joinNl M := by
  cases M with
  | nil => rfl
  | cons m ms =>
    rw [normalizeL, normEol_eq_self _ (no_cr_joinNl p6),
      splitNl_joinNl _ (by simp) p5,
      collapseBlanks_id _ 0 p1 p2 (fun hcontra => absurd hcontra (by omega)),
      dropTrailingBlanks_id _ p3,
      stripL, lstripL_joinNl, fixLead_id _ p4]
    exact rstripL_joinNl_id _ p1 p3

/-- Helper: the character-level normaliser is idempotent. -/
theorem normalizeL_idem (raw : List Char) :
    normalizeL (normalizeL raw) = normalizeL raw := by
  obtain ⟨p1, p2, p3, p4, p5, p6⟩ := normalized_props raw
  rw [normalizeL_eq raw]
  exact normalizeL_joinNl_fixed _ p1 p2 p3 p4 p5 p6

/-- C3: `normalize_content` is idempotent — for every input string `x`,
`normalize_content (normalize_content x) = normalize_content x`. -/
theorem C3_normalize_idempotent (x : String) :
    normalize_content (normalize_content x) = normalize_content x := by
  show (⟨normalizeL (normalizeL x.data)⟩ : String) = normalize_content x
  rw [normalizeL_idem]
  rfl
